import Mathlib

/-!
Verification of the google-voice-takeout-parser extractor and its storage /
reconciliation layer.  The Go source is shallowly embedded: Go strings are
Lean `String`s manipulated through executable helpers that mirror the
`strings` standard-library functions used by the code, `time.Time` values are
modelled as `Int` nanoseconds since the Unix epoch (Go's `UnixNano`), and the
`golang.org/x/net/html` node tree is modelled by the inductive `GNode`.
All definitions are structural recursions, so concrete runs reduce with
`decide` / `rfl`.
-/

/-! ## Go string primitives (model of the `strings` package functions used) -/

/-- Whitespace test used by `strings.TrimSpace` (ASCII part of `unicode.IsSpace`;
the exotic Unicode spaces are irrelevant to this corpus). -/
def chIsSpace (c : Char) : Bool :=
  c = ' ' || c = '\t' || c = '\n' || c = '\r' || c = '\x0b' || c = '\x0c'

/-- Model of `strings.TrimSpace`. -/
def goTrimSpace (s : String) : String :=
  ⟨((s.data.dropWhile chIsSpace).reverse.dropWhile chIsSpace).reverse⟩

/-- Boolean prefix test on character lists: `hasPfx p l` holds when `p` is a
prefix of `l`. -/
def hasPfx : List Char → List Char → Bool
  | [], _ => true
  | _ :: _, [] => false
  | a :: as, b :: bs => a = b && hasPfx as bs

/-- Remove a prefix when present, returning the remainder. -/
def dropPfxO : List Char → List Char → Option (List Char)
  | [], l => some l
  | _ :: _, [] => none
  | a :: as, b :: bs => if a = b then dropPfxO as bs else none

/-- Substring containment on character lists. -/
def containsL : List Char → List Char → Bool
  | l, sub =>
    match l with
    | [] => hasPfx sub []
    | _ :: rest => hasPfx sub l || containsL rest sub

/-- Model of `strings.Contains`. -/
def goContains (s sub : String) : Bool := containsL s.data sub.data

/-- Model of `strings.HasPrefix`. -/
def goHasPfx (s p : String) : Bool := hasPfx p.data s.data

/-- Model of `strings.HasSuffix`. -/
def goHasSfx (s sfx : String) : Bool := hasPfx sfx.data.reverse s.data.reverse

/-- Model of `strings.TrimPrefix`. -/
def goTrimPfx (s p : String) : String :=
  if hasPfx p.data s.data then ⟨s.data.drop p.data.length⟩ else s

/-- Model of `strings.Trim` with a cutset (the code trims `"()"`). -/
def goTrimCutset (s cutset : String) : String :=
  let inCut := fun c => cutset.data.contains c
  ⟨((s.data.dropWhile inCut).reverse.dropWhile inCut).reverse⟩

/-- Fuelled worker for `goSplit`; the fuel is the length of the input, which
is enough because every step consumes at least one character (the separator is
never empty in this code base). -/
def splitAux (sep : List Char) : Nat → List Char → List Char → List (List Char)
  | _, [], acc => [acc.reverse]
  | 0, rest, acc => [acc.reverse ++ rest]
  | fuel + 1, c :: rest, acc =>
    match dropPfxO sep (c :: rest) with
    | some tail => acc.reverse :: splitAux sep fuel tail []
    | none => splitAux sep fuel rest (c :: acc)

/-- Model of `strings.Split` (for the non-empty separators used by the code:
`" "`, `"-"`, `" to "`). -/
def goSplit (s sep : String) : List String :=
  (splitAux sep.data s.data.length s.data []).map (fun l => ⟨l⟩)

/-- Model of `strings.Join`. -/
def goJoin : List String → String → String
  | [], _ => ""
  | [x], _ => x
  | x :: y :: rest, sep => x ++ sep ++ goJoin (y :: rest) sep

/-- Model of `strings.ReplaceAll` (for the non-empty pattern `"\n"` used by
the code), via the split/join identity. -/
def goReplaceAll (s old new : String) : String := goJoin (goSplit s old) new

/-! ## Go map's used as `map[string]string`, modelled as association lists.
The list order is the insertion order; Go map equality is key/value-set
equality, which `alookup` exposes. -/

/-- Lookup in an association list (model of Go map indexing). -/
def alookup : List (String × String) → String → Option String
  | [], _ => none
  | (k, v) :: rest, key => if k = key then some v else alookup rest key

/-- Model of Go map assignment `m[k] = v`: replace in place or append. -/
def upsert : List (String × String) → String → String → List (String × String)
  | [], k, v => [(k, v)]
  | (k', v') :: rest, k, v =>
    if k' = k then (k, v) :: rest else (k', v') :: upsert rest k v

/-! ## Time, modelled as `Int` nanoseconds since the Unix epoch -/

/-- Go's zero `time.Time` (January 1, year 1, 00:00:00 UTC) as `UnixNano`. -/
def goZeroTime : Int := -62135596800000000000

/-- Numeric value of a decimal digit. -/
def digitVal (c : Char) : Option Nat :=
  if '0' ≤ c ∧ c ≤ '9' then some (c.toNat - '0'.toNat) else none

/-- Read exactly `k` decimal digits, most significant first. -/
def readDigitsAux : Nat → Nat → List Char → Option (Nat × List Char)
  | 0, acc, l => some (acc, l)
  | k + 1, acc, l =>
    match l with
    | [] => none
    | c :: rest =>
      match digitVal c with
      | some d => readDigitsAux k (acc * 10 + d) rest
      | none => none

/-- Expect one literal character. -/
def expectCh (c : Char) : List Char → Option (List Char)
  | [] => none
  | d :: rest => if d = c then some rest else none

/-- Gregorian leap-year test (years here are 0–9999, where Go's `%` and
Lean's `%` agree). -/
def isLeapYear (y : Int) : Bool := y % 4 == 0 && (y % 100 != 0 || y % 400 == 0)

/-- Length of a month. -/
def daysInMonth (y : Int) (m : Nat) : Nat :=
  match m with
  | 1 => 31 | 2 => if isLeapYear y then 29 else 28
  | 3 => 31 | 4 => 30 | 5 => 31 | 6 => 30 | 7 => 31
  | 8 => 31 | 9 => 30 | 10 => 31 | 11 => 30 | 12 => 31
  | _ => 0

/-- Days from the civil date `y-m-d` to 1970-01-01 (standard civil-calendar
algorithm; all divisions below act on non-negative operands for the years in
scope, so rounding conventions do not matter). -/
def daysFromCivil (y : Int) (m d : Nat) : Int :=
  let yy : Int := if m ≤ 2 then y - 1 else y
  let era : Int := (if 0 ≤ yy then yy else yy - 399) / 400
  let yoe : Int := yy - era * 400
  let mp : Int := ((m : Int) + 9) % 12
  let doy : Int := (153 * mp + 2) / 5 + (d : Int) - 1
  let doe : Int := yoe * 365 + yoe / 4 - yoe / 100 + doy
  era * 146097 + doe - 719468

/-- Exponent helper for fractional seconds. -/
def pow10 : Nat → Nat
  | 0 => 1
  | n + 1 => 10 * pow10 n

/-- Nanoseconds denoted by a fractional-second digit string (Go keeps the
first nine digits). -/
def fracNanos (ds : List Char) : Nat :=
  let first9 := ds.take 9
  (first9.foldl (fun a c => a * 10 + ((digitVal c).getD 0)) 0) * pow10 (9 - first9.length)

/-- Parse an optional fractional-second part after the dot. -/
def parseFrac (l : List Char) : Option (Nat × List Char) :=
  let ds := l.takeWhile (fun c => (digitVal c).isSome)
  if ds.isEmpty then none else some (fracNanos ds, l.drop ds.length)

/-- Parse the zone suffix (`Z` or `±hh:mm`), returning the offset in seconds;
the zone must end the input. -/
def parseZone : List Char → Option Int
  | ['Z'] => some 0
  | c :: rest =>
    if c = '+' || c = '-' then
      match readDigitsAux 2 0 rest with
      | some (h, ':' :: r2) =>
        match readDigitsAux 2 0 r2 with
        | some (mi, []) =>
          if h ≤ 23 && mi ≤ 59 then
            some ((if c = '+' then 1 else -1) * ((h : Int) * 3600 + (mi : Int) * 60))
          else none
        | _ => none
      | _ => none
    else none
  | [] => none

/-- Model of Go's `time.Parse(time.RFC3339, s)`, returning `UnixNano` of the
parsed instant (`none` on a parse error). -/
def parseRFC3339 (s : String) : Option Int := do
  let (y, l) ← readDigitsAux 4 0 s.data
  let l ← expectCh '-' l
  let (mo, l) ← readDigitsAux 2 0 l
  let l ← expectCh '-' l
  let (d, l) ← readDigitsAux 2 0 l
  let l ← expectCh 'T' l
  let (h, l) ← readDigitsAux 2 0 l
  let l ← expectCh ':' l
  let (mi, l) ← readDigitsAux 2 0 l
  let l ← expectCh ':' l
  let (sec, l) ← readDigitsAux 2 0 l
  let (ns, l) ←
    match l with
    | '.' :: rest => parseFrac rest
    | _ => some (0, l)
  let off ← parseZone l
  if 1 ≤ mo && mo ≤ 12 && 1 ≤ d && d ≤ daysInMonth (Int.ofNat y) mo
      && h ≤ 23 && mi ≤ 59 && sec ≤ 59 then
    some ((daysFromCivil (Int.ofNat y) mo d * 86400
        + (h : Int) * 3600 + (mi : Int) * 60 + (sec : Int) - off) * 1000000000
        + (ns : Int))
  else none

/-! ## The markup tree (model of `golang.org/x/net/html.Node`) -/

/-- A parsed markup node: an element with a tag, attributes and ordered
children, or a text node.  (`html.Node` also carries parent/sibling links;
the traversals below pass the parent's attributes explicitly where the code
reads `n.Parent`.) -/
inductive GNode where
  | elem (tag : String) (attrs : List (String × String)) (children : List GNode)
  | text (data : String)

/-- Attributes of a node (`n.Attr`; empty for text nodes). -/
def attrsOf : GNode → List (String × String)
  | .elem _ attrs _ => attrs
  | .text _ => []

mutual
/-- Concatenated text payload of a subtree, in traversal order. -/
def extractTextRaw : GNode → String
  | .text s => s
  | .elem _ _ cs => extractTextRawL cs
/-- List version of `extractTextRaw`. -/
def extractTextRawL : List GNode → String
  | [] => ""
  | c :: cs => extractTextRaw c ++ extractTextRawL cs
end

/-- Model of the source's `extractText`: concatenate every descendant text
node, then trim whitespace once. -/
def extractText (n : GNode) : String := goTrimSpace (extractTextRaw n)

mutual
/-- All nodes of a subtree (the node itself first, then descendants in
document order); used to state membership lemmas about the walks. -/
def nodesOf : GNode → List GNode
  | .text s => [.text s]
  | .elem t a cs => .elem t a cs :: nodesOfL cs
/-- List version of `nodesOf`. -/
def nodesOfL : List GNode → List GNode
  | [] => []
  | c :: cs => nodesOf c ++ nodesOfL cs
end

/-- Sanity anchors for the time model: the Unix epoch and Go's zero time. -/
theorem daysFromCivil_epoch : daysFromCivil 1970 1 1 = 0 ∧ daysFromCivil 1 1 1 * 86400 * 1000000000 = goZeroTime := by
  constructor <;> decide

/-- Sanity anchor: a concrete RFC 3339 instant from the repository's test
suite parses to the expected epoch nanoseconds. -/
theorem parseRFC3339_anchor :
    parseRFC3339 "2022-07-01T01:06:39.894Z" = some 1656637599894000000 := by decide

/-! ## The record model (`Conversation`, `Message`) -/

/-- Model of the source's `Message` struct (`Timestamp` as `UnixNano`). -/
structure Message where
  timestamp : Int
  sender : String
  senderNumber : String
  content : String
  images : List String
deriving DecidableEq, Repr

/-- Zero value of `Message`. -/
def initMessage : Message := ⟨goZeroTime, "", "", "", []⟩

/-- Model of the source's `Conversation` struct.  A nil and an empty Go map
both appear as `[]` here; the two differ in Go only by a panic on a later
assignment, never in a record that the program outputs. -/
structure Conversation where
  type : String
  participants : List (String × String)
  timestamp : Int
  duration : String
  messages : List Message
  transcript : String
  sourceFile : String
deriving DecidableEq, Repr

/-- Zero value of `Conversation` (also the `parseFile` initial value, whose
explicit `make(map...)` is the same `[]` here). -/
def initConversation : Conversation := ⟨"", [], goZeroTime, "", [], "", ""⟩

/-! ## The extractor walks (functions of the source, in source order) -/

/-- Model of `extractPhoneNumber`: first `href` attribute of the given node
(the code passes `n.Parent`) whose value has the `tel:` scheme, prefix
stripped; `""` when none. -/
def extractPhoneNumber : List (String × String) → String
  | [] => ""
  | a :: rest =>
    if a.1 = "href" && goHasPfx a.2 "tel:" then goTrimPfx a.2 "tel:"
    else extractPhoneNumber rest

mutual
/-- Walk of `parseParticipants`: at every element, each `class="fn"`
attribute inserts `participants[extractText n] = extractPhoneNumber n.Parent`;
`pattrs` carries the parent's attributes. -/
def ppNode (m : List (String × String)) (pattrs : List (String × String)) :
    GNode → List (String × String)
  | .text _ => m
  | .elem t attrs cs =>
    let m1 := attrs.foldl
      (fun acc a =>
        if a.1 = "class" && a.2 = "fn" then
          upsert acc (extractText (.elem t attrs cs)) (extractPhoneNumber pattrs)
        else acc) m
    ppList m1 attrs cs
/-- Children walk of `parseParticipants`; `pattrs` is the parent element's
attribute list. -/
def ppList (m : List (String × String)) (pattrs : List (String × String)) :
    List GNode → List (String × String)
  | [] => m
  | c :: cs => ppList (ppNode m pattrs c) pattrs cs
end

/-- Model of `parseParticipants`.  The walk root is always one of the two
`div`s dispatched on above it, which carries no `class="fn"` attribute, so
its Go parent's attributes are immaterial and `[]` is passed for them. -/
def parseParticipants (n : GNode) : List (String × String) := ppNode [] [] n

/-- Model of `parseTimestamp`: the first `title` attribute is handed to the
RFC 3339 parser; no attribute or a parse error is the error case. -/
def parseTimestamp : List (String × String) → Option Int
  | [] => none
  | a :: rest => if a.1 = "title" then parseRFC3339 a.2 else parseTimestamp rest

/-- Model of `parseMessageTimestamp`: first `title` attribute that parses as
RFC 3339; otherwise the zero time. -/
def parseMessageTimestamp : List (String × String) → Int
  | [] => goZeroTime
  | a :: rest =>
    if a.1 = "title" then
      match parseRFC3339 a.2 with
      | some t => t
      | none => parseMessageTimestamp rest
    else parseMessageTimestamp rest

mutual
/-- Walk of `parseSenderAndNumber`: `abbr`/`span` with `class="fn"` overwrite
the sender with the node's text, `a` elements with a `tel:` link overwrite
the number. -/
def psanNode (st : String × String) : GNode → String × String
  | .text _ => st
  | .elem tag attrs cs =>
    let st1 :=
      if tag = "abbr" || tag = "span" then
        attrs.foldl
          (fun s a =>
            if a.1 = "class" && a.2 = "fn" then (extractText (.elem tag attrs cs), s.2)
            else s) st
      else if tag = "a" then
        attrs.foldl
          (fun s a =>
            if a.1 = "href" && goHasPfx a.2 "tel:" then (s.1, goTrimPfx a.2 "tel:")
            else s) st
      else st
    psanList st1 cs
/-- Children walk of `parseSenderAndNumber`. -/
def psanList (st : String × String) : List GNode → String × String
  | [] => st
  | c :: cs => psanList (psanNode st c) cs
end

/-- Model of `parseSenderAndNumber`. -/
def parseSenderAndNumber (n : GNode) : String × String := psanNode ("", "") n

mutual
/-- Walk of `parseMessage`, dispatching on the element tag exactly as the
source's `switch`. -/
def pmNode (msg : Message) : GNode → Message
  | .text _ => msg
  | .elem tag attrs cs =>
    let msg1 :=
      if tag = "abbr" then
        attrs.foldl
          (fun m a =>
            if a.1 = "class" && a.2 = "dt" then
              { m with timestamp := parseMessageTimestamp attrs }
            else m) msg
      else if tag = "cite" then
        { msg with sender := (parseSenderAndNumber (.elem tag attrs cs)).1,
                   senderNumber := (parseSenderAndNumber (.elem tag attrs cs)).2 }
      else if tag = "q" then { msg with content := extractText (.elem tag attrs cs) }
      else if tag = "img" then
        attrs.foldl
          (fun m a => if a.1 = "src" then { m with images := m.images ++ [a.2] } else m) msg
      else msg
    pmList msg1 cs
/-- Children walk of `parseMessage`. -/
def pmList (msg : Message) : List GNode → Message
  | [] => msg
  | c :: cs => pmList (pmNode msg c) cs
end

/-- Model of `parseMessage`. -/
def parseMessage (n : GNode) : Message := pmNode initMessage n

mutual
/-- Walk of `parseMessages`: every `div` with `class="message"` appends
`parseMessage` of that node, and the walk still descends into it. -/
def pmsNode (acc : List Message) : GNode → List Message
  | .text _ => acc
  | .elem tag attrs cs =>
    let acc1 :=
      if tag = "div" then
        attrs.foldl
          (fun l a =>
            if a.1 = "class" && a.2 = "message" then l ++ [parseMessage (.elem tag attrs cs)]
            else l) acc
      else acc
    pmsList acc1 cs
/-- Children walk of `parseMessages`. -/
def pmsList (acc : List Message) : List GNode → List Message
  | [] => acc
  | c :: cs => pmsList (pmsNode acc c) cs
end

/-- Model of `parseMessages`. -/
def parseMessages (n : GNode) : List Message := pmsNode [] n

/-- The `div` handler of `parseCallOrVoicemail`'s attribute loop. -/
def pcvDivStep (n : GNode) (conv : Conversation) (a : String × String) : Conversation :=
  if a.1 = "class" && a.2 = "contributor vcard" then
    { conv with participants := parseParticipants n }
  else conv

/-- The `span` handler of `parseCallOrVoicemail`'s attribute loop. -/
def pcvSpanStep (n : GNode) (conv : Conversation) (a : String × String) : Conversation :=
  if a.1 = "class" && a.2 = "full-text" then { conv with transcript := extractText n }
  else conv

/-- The `abbr` handler of `parseCallOrVoicemail`'s attribute loop: a failed
`published` parse is logged and leaves the timestamp unset. -/
def pcvAbbrStep (n : GNode) (conv : Conversation) (a : String × String) : Conversation :=
  if a.1 = "class" then
    if a.2 = "published" then
      match parseTimestamp (attrsOf n) with
      | some t => { conv with timestamp := t }
      | none => conv
    else if a.2 = "duration" then
      { conv with duration := goTrimCutset (extractText n) "()" }
    else conv
  else conv

mutual
/-- Walk of `parseCallOrVoicemail`: element handlers by tag, and the text
handler's marker chain (`Voicemail`, `Placed call`, `Received call`,
`Missed call`) on the trimmed text, later assignments overwriting. -/
def pcvNode (conv : Conversation) : GNode → Conversation
  | .text s =>
    let t := goTrimSpace s
    if goContains t "Voicemail" then { conv with type := "voicemail" }
    else if goContains t "Placed call" then { conv with type := "placed_call" }
    else if goContains t "Received call" then { conv with type := "received_call" }
    else if goContains t "Missed call" then { conv with type := "missed_call" }
    else conv
  | .elem tag attrs cs =>
    let n := GNode.elem tag attrs cs
    let conv1 :=
      if tag = "div" then attrs.foldl (pcvDivStep n) conv
      else if tag = "span" then attrs.foldl (pcvSpanStep n) conv
      else if tag = "abbr" then attrs.foldl (pcvAbbrStep n) conv
      else conv
    pcvList conv1 cs
/-- Children walk of `parseCallOrVoicemail`. -/
def pcvList (conv : Conversation) : List GNode → Conversation
  | [] => conv
  | c :: cs => pcvList (pcvNode conv c) cs
end

/-- Model of `parseCallOrVoicemail` (starts from the zero `Conversation`). -/
def parseCallOrVoicemail (n : GNode) : Conversation := pcvNode initConversation n

mutual
/-- Walk of `extractTitle`: a `title` element sets the result to its text and
is not descended into; later `title` elements overwrite. -/
def extractTitleN (cur : String) : GNode → String
  | .text _ => cur
  | .elem t a cs =>
    if t = "title" then extractText (.elem t a cs) else extractTitleL cur cs
/-- Children walk of `extractTitle`. -/
def extractTitleL (cur : String) : List GNode → String
  | [] => cur
  | c :: cs => extractTitleL (extractTitleN cur c) cs
end

/-- Model of `extractTitle`. -/
def extractTitle (n : GNode) : String := extractTitleN "" n

/-- Merge of `parseParticipants`' result into the running map
(`for k, v := range ... { conversation.Participants[k] = v }`; Go's random
range order is immaterial because map assignment is order-independent on
distinct keys, and the keys of an association list built by `upsert` are
distinct). -/
def mergeParts (old new : List (String × String)) : List (String × String) :=
  new.foldl (fun m kv => upsert m kv.1 kv.2) old

/-- The `title` handler of `parseFile`: split the title (newlines replaced by
spaces) on `" to "`; exactly two pieces add the trimmed sender/recipient
names with empty numbers, each only when not already present. -/
def titleStep (n : GNode) (conv : Conversation) : Conversation :=
  let title := goReplaceAll (extractTitle n) "\n" " "
  let parts := goSplit title " to "
  if parts.length = 2 then
    let sender := goTrimSpace (parts.headD "")
    let recipient := goTrimSpace ((parts.drop 1).headD "")
    let conv1 :=
      if (alookup conv.participants sender).isSome then conv
      else { conv with participants := upsert conv.participants sender "" }
    if (alookup conv1.participants recipient).isSome then conv1
    else { conv1 with participants := upsert conv1.participants recipient "" }
  else conv

/-- The `div` handler of `parseFile`'s attribute loop: a chat-log `div`
sets the type, merges participants, re-reads the messages and, when they are
non-empty, copies the first message's timestamp; an `haudio` `div` replaces
the whole conversation with `parseCallOrVoicemail`'s result. -/
def pfDivStep (n : GNode) (conv : Conversation) (a : String × String) : Conversation :=
  if a.1 = "class" then
    if a.2 = "hChatLog hfeed" then
      let conv1 := { conv with
        type := "chat",
        participants := mergeParts conv.participants (parseParticipants n) }
      let msgs := parseMessages n
      let conv2 := { conv1 with messages := msgs }
      match msgs with
      | [] => conv2
      | m :: _ => { conv2 with timestamp := m.timestamp }
    else if a.2 = "haudio" then parseCallOrVoicemail n
    else conv
  else conv

mutual
/-- Walk of `parseFile` over the whole document. -/
def pfNode (conv : Conversation) : GNode → Conversation
  | .text _ => conv
  | .elem tag attrs cs =>
    let n := GNode.elem tag attrs cs
    let conv1 :=
      if tag = "title" then titleStep n conv
      else if tag = "div" then attrs.foldl (pfDivStep n) conv
      else conv
    pfList conv1 cs
/-- Children walk of `parseFile`. -/
def pfList (conv : Conversation) : List GNode → Conversation
  | [] => conv
  | c :: cs => pfList (pfNode conv c) cs
end

/-- Model of `parseFile` on an already-built tree (the `html.Parse` step is
the external tree builder; its failure is the structural-error path of the
driver, modelled there). -/
def parseFile (doc : GNode) : Conversation := pfNode initConversation doc

/-! ## Generic fold lemmas -/

/-- A predicate preserved by every step of a left fold is preserved by the
fold. -/
theorem foldl_inv {α β : Type} (P : α → Prop) (f : α → β → α)
    (hf : ∀ x b, P x → P (f x b)) : ∀ (l : List β) (x : α), P x → P (l.foldl f x)
  | [], _, h => h
  | b :: l, x, h => foldl_inv P f hf l (f x b) (hf x b h)

/-- An observation untouched by every step of a left fold is untouched by the
fold. -/
theorem foldl_pres {α β γ : Type} (g : α → γ) (f : α → β → α)
    (hf : ∀ x b, g (f x b) = g x) : ∀ (l : List β) (x : α), g (l.foldl f x) = g x
  | [], _ => rfl
  | b :: l, x => (foldl_pres g f hf l (f x b)).trans (hf x b)

/-! ## Small string lemmas -/

/-- Appending the empty string is the identity. -/
theorem strAppendEmpty (s : String) : s ++ "" = s := by
  apply String.ext
  simp [String.data_append]

/-- A list is a prefix of itself followed by anything. -/
theorem hasPfx_append (p r : List Char) : hasPfx p (p ++ r) = true := by
  induction p with
  | nil => rfl
  | cons c cs ih => simp [hasPfx, ih]

/-- Stripping the `tel:` scheme from a `tel:`-prefixed value recovers the
payload. -/
theorem goTrimPfx_tel (p : String) : goTrimPfx ("tel:" ++ p) "tel:" = p := by
  unfold goTrimPfx
  rw [String.data_append, hasPfx_append, if_pos rfl]
  apply String.ext
  show ("tel:".data ++ p.data).drop ("tel:".data.length) = p.data
  exact List.drop_left _ _

/-! ## Claim C1: classification of an audio record by its text markers -/

/-- Classification of one text node's payload, exactly the marker chain of
`parseCallOrVoicemail` (trim, then the four `Contains` tests in order). -/
def markerOf (s : String) : Option String :=
  let t := goTrimSpace s
  if goContains t "Voicemail" then some "voicemail"
  else if goContains t "Placed call" then some "placed_call"
  else if goContains t "Received call" then some "received_call"
  else if goContains t "Missed call" then some "missed_call"
  else none

mutual
/-- The markers of all text nodes of a subtree, in depth-first order. -/
def textMarkers : GNode → List String
  | .text s => (markerOf s).toList
  | .elem _ _ cs => textMarkersL cs
/-- List version of `textMarkers`. -/
def textMarkersL : List GNode → List String
  | [] => []
  | c :: cs => textMarkers c ++ textMarkersL cs
end

/-- Last element of a list, with a default. -/
def lastOr (d : String) (l : List String) : String := l.foldl (fun _ x => x) d

/-- The claim's reading: the first matching text node decides the type. -/
def firstMarkerType (n : GNode) : String := (textMarkers n).headD ""

/-- The code's behaviour: the last matching text node decides the type. -/
def lastMarkerType (n : GNode) : String := lastOr "" (textMarkers n)

/-- Folding the overwrite function over a concatenation. -/
theorem lastOr_append (d : String) (xs ys : List String) :
    lastOr d (xs ++ ys) = lastOr (lastOr d xs) ys := by
  simp [lastOr, List.foldl_append]

/-- The `div` handler of the call walk never writes the type. -/
theorem pcvDivStep_type (n : GNode) (conv : Conversation) (a : String × String) :
    (pcvDivStep n conv a).type = conv.type := by
  unfold pcvDivStep; split <;> rfl

/-- The `span` handler of the call walk never writes the type. -/
theorem pcvSpanStep_type (n : GNode) (conv : Conversation) (a : String × String) :
    (pcvSpanStep n conv a).type = conv.type := by
  unfold pcvSpanStep; split <;> rfl

/-- The `abbr` handler of the call walk never writes the type. -/
theorem pcvAbbrStep_type (n : GNode) (conv : Conversation) (a : String × String) :
    (pcvAbbrStep n conv a).type = conv.type := by
  unfold pcvAbbrStep
  repeat' split <;> try rfl

/-- The element dispatch of the call walk never writes the type. -/
theorem pcvStep_type (conv : Conversation) (tag : String)
    (attrs : List (String × String)) (cs : List GNode) :
    (if tag = "div" then attrs.foldl (pcvDivStep (.elem tag attrs cs)) conv
     else if tag = "span" then attrs.foldl (pcvSpanStep (.elem tag attrs cs)) conv
     else if tag = "abbr" then attrs.foldl (pcvAbbrStep (.elem tag attrs cs)) conv
     else conv).type = conv.type := by
  split
  · exact foldl_pres Conversation.type _ (fun x b => pcvDivStep_type _ x b) attrs conv
  split
  · exact foldl_pres Conversation.type _ (fun x b => pcvSpanStep_type _ x b) attrs conv
  split
  · exact foldl_pres Conversation.type _ (fun x b => pcvAbbrStep_type _ x b) attrs conv
  · rfl

mutual
/-- In the call walk, the final type is the last marker of the subtree's text
nodes (or the incoming type when there is none). -/
theorem pcvNode_type : ∀ (conv : Conversation) (n : GNode),
    (pcvNode conv n).type = lastOr conv.type (textMarkers n)
  | conv, .text s => by
    simp only [pcvNode, textMarkers, markerOf]
    by_cases h1 : goContains (goTrimSpace s) "Voicemail"
    · simp [h1, lastOr]
    · by_cases h2 : goContains (goTrimSpace s) "Placed call"
      · simp [h1, h2, lastOr]
      · by_cases h3 : goContains (goTrimSpace s) "Received call"
        · simp [h1, h2, h3, lastOr]
        · by_cases h4 : goContains (goTrimSpace s) "Missed call"
          · simp [h1, h2, h3, h4, lastOr]
          · simp [h1, h2, h3, h4, lastOr]
  | conv, .elem tag attrs cs => by
    have hl := pcvList_type
        (if tag = "div" then attrs.foldl (pcvDivStep (.elem tag attrs cs)) conv
         else if tag = "span" then attrs.foldl (pcvSpanStep (.elem tag attrs cs)) conv
         else if tag = "abbr" then attrs.foldl (pcvAbbrStep (.elem tag attrs cs)) conv
         else conv) cs
    simp only [pcvNode, textMarkers]
    rw [hl, pcvStep_type conv tag attrs cs]
/-- List version of `pcvNode_type`. -/
theorem pcvList_type : ∀ (conv : Conversation) (cs : List GNode),
    (pcvList conv cs).type = lastOr conv.type (textMarkersL cs)
  | conv, [] => rfl
  | conv, c :: cs => by
    simp only [pcvList, textMarkersL]
    rw [pcvList_type (pcvNode conv c) cs, pcvNode_type conv c, lastOr_append]
end

/-- Document used to refute claim C1: an `haudio` record whose first text
node says `Voicemail` and whose second says `Missed call`. -/
def cexC1 : GNode :=
  .elem "div" [("class", "haudio")] [.text "Voicemail", .text "Missed call"]

/-- Claim C1 counterexample: the first matching text node of this record
carries the `Voicemail` marker, yet the code classifies the record as
`missed_call` — a later matching text node does change the classification,
so first-match-wins is false. -/
theorem C1_counterexample :
    firstMarkerType cexC1 = "voicemail" ∧
    (parseCallOrVoicemail cexC1).type = "missed_call" := by
  constructor <;> decide

/-- Claim C1 (corrected): for every audio/call record, the type is decided by
the LAST text node (in depth-first order) that matches one of the four
literal markers — within one text node the markers apply with the priority
Voicemail, Placed call, Received call, Missed call, and markers do not
compose; when no text node matches, the type stays empty. -/
theorem C1_type_lastMarker (n : GNode) :
    (parseCallOrVoicemail n).type = lastMarkerType n := by
  unfold parseCallOrVoicemail lastMarkerType
  exact pcvNode_type initConversation n

/-! ## Claim C2: the chat conversation timestamp -/

/-- The `title` handler never writes the message list. -/
theorem titleStep_messages (n : GNode) (conv : Conversation) :
    (titleStep n conv).messages = conv.messages := by
  simp only [titleStep]
  repeat' split <;> try rfl

/-- The `title` handler never writes the timestamp. -/
theorem titleStep_timestamp (n : GNode) (conv : Conversation) :
    (titleStep n conv).timestamp = conv.timestamp := by
  simp only [titleStep]
  repeat' split <;> try rfl

/-- The `div` handler of the call walk never writes the message list. -/
theorem pcvDivStep_messages (n : GNode) (conv : Conversation) (a : String × String) :
    (pcvDivStep n conv a).messages = conv.messages := by
  unfold pcvDivStep; split <;> rfl

/-- The `span` handler of the call walk never writes the message list. -/
theorem pcvSpanStep_messages (n : GNode) (conv : Conversation) (a : String × String) :
    (pcvSpanStep n conv a).messages = conv.messages := by
  unfold pcvSpanStep; split <;> rfl

/-- The `abbr` handler of the call walk never writes the message list. -/
theorem pcvAbbrStep_messages (n : GNode) (conv : Conversation) (a : String × String) :
    (pcvAbbrStep n conv a).messages = conv.messages := by
  unfold pcvAbbrStep
  repeat' split <;> try rfl

/-- The element dispatch of the call walk never writes the message list. -/
theorem pcvStep_messages (conv : Conversation) (tag : String)
    (attrs : List (String × String)) (cs : List GNode) :
    (if tag = "div" then attrs.foldl (pcvDivStep (.elem tag attrs cs)) conv
     else if tag = "span" then attrs.foldl (pcvSpanStep (.elem tag attrs cs)) conv
     else if tag = "abbr" then attrs.foldl (pcvAbbrStep (.elem tag attrs cs)) conv
     else conv).messages = conv.messages := by
  split
  · exact foldl_pres Conversation.messages _ (fun x b => pcvDivStep_messages _ x b) attrs conv
  split
  · exact foldl_pres Conversation.messages _ (fun x b => pcvSpanStep_messages _ x b) attrs conv
  split
  · exact foldl_pres Conversation.messages _ (fun x b => pcvAbbrStep_messages _ x b) attrs conv
  · rfl

mutual
/-- The call walk never writes the message list. -/
theorem pcvNode_messages : ∀ (conv : Conversation) (n : GNode),
    (pcvNode conv n).messages = conv.messages
  | conv, .text s => by
    simp only [pcvNode]
    repeat' split <;> try rfl
  | conv, .elem tag attrs cs => by
    have hl := pcvList_messages
        (if tag = "div" then attrs.foldl (pcvDivStep (.elem tag attrs cs)) conv
         else if tag = "span" then attrs.foldl (pcvSpanStep (.elem tag attrs cs)) conv
         else if tag = "abbr" then attrs.foldl (pcvAbbrStep (.elem tag attrs cs)) conv
         else conv) cs
    simp only [pcvNode]
    rw [hl, pcvStep_messages conv tag attrs cs]
/-- List version of `pcvNode_messages`. -/
theorem pcvList_messages : ∀ (conv : Conversation) (cs : List GNode),
    (pcvList conv cs).messages = conv.messages
  | _, [] => rfl
  | conv, c :: cs => by
    simp only [pcvList]
    rw [pcvList_messages (pcvNode conv c) cs, pcvNode_messages conv c]
end

/-- A call/voicemail record never carries messages. -/
theorem parseCallOrVoicemail_messages (n : GNode) :
    (parseCallOrVoicemail n).messages = [] := by
  unfold parseCallOrVoicemail
  rw [pcvNode_messages]
  rfl

/-- The head-timestamp invariant survives the `div` handler of `parseFile`. -/
theorem pfDivStep_inv (n : GNode) (conv : Conversation) (a : String × String)
    (h : ∀ m, conv.messages.head? = some m → conv.timestamp = m.timestamp) :
    ∀ m, (pfDivStep n conv a).messages.head? = some m →
      (pfDivStep n conv a).timestamp = m.timestamp := by
  unfold pfDivStep
  split
  · split
    · cases hp : parseMessages n with
      | nil =>
        intro m hm
        simp [hp] at hm
      | cons m0 rest =>
        intro m hm
        simp [hp] at hm ⊢
        rw [hm]
    · split
      · intro m hm
        rw [parseCallOrVoicemail_messages n] at hm
        simp at hm
      · exact h
  · exact h

mutual
/-- The head-timestamp invariant survives the whole `parseFile` walk. -/
theorem pfNode_inv : ∀ (conv : Conversation) (n : GNode),
    (∀ m, conv.messages.head? = some m → conv.timestamp = m.timestamp) →
    ∀ m, (pfNode conv n).messages.head? = some m →
      (pfNode conv n).timestamp = m.timestamp
  | conv, .text _, h => h
  | conv, .elem tag attrs cs, h => by
    simp only [pfNode]
    apply pfList_inv _ cs
    split
    · intro m hm
      rw [titleStep_messages] at hm
      rw [titleStep_timestamp]
      exact h m hm
    split
    · exact foldl_inv _ (pfDivStep (.elem tag attrs cs))
        (fun x b hx => pfDivStep_inv (.elem tag attrs cs) x b hx) attrs conv h
    · exact h
/-- List version of `pfNode_inv`. -/
theorem pfList_inv : ∀ (conv : Conversation) (cs : List GNode),
    (∀ m, conv.messages.head? = some m → conv.timestamp = m.timestamp) →
    ∀ m, (pfList conv cs).messages.head? = some m →
      (pfList conv cs).timestamp = m.timestamp
  | _, [], h => h
  | conv, c :: cs, h => pfList_inv (pfNode conv c) cs (pfNode_inv conv c h)
end

/-- Minimum timestamp of a message list — the quantity named by the claim's
reading of "the timestamp of the earliest message". -/
def minMsgTs : List Message → Int
  | [] => goZeroTime
  | m :: rest => rest.foldl (fun a x => min a x.timestamp) m.timestamp

/-- One chat message node: `dt` timestamp, `cite` sender with a `tel:` link,
`q` content. -/
def mkMsgNode (ts who num what : String) : GNode :=
  .elem "div" [("class", "message")]
    [ .elem "abbr" [("class", "dt"), ("title", ts)] [],
      .elem "cite" []
        [ .elem "a" [("href", num)] [ .elem "span" [("class", "fn")] [.text who] ] ],
      .elem "q" [] [.text what] ]

/-- Document used to refute claim C2: a chat whose first message (document
order) is NOT the earliest one. -/
def cexC2 : GNode :=
  .elem "html" []
    [ .elem "div" [("class", "hChatLog hfeed")]
        [ mkMsgNode "2022-01-01T00:00:10Z" "Me" "tel:+2222" "hi",
          mkMsgNode "2022-01-01T00:00:05Z" "Bob" "tel:+333" "yo" ] ]

/-- Claim C2 counterexample: for this chat document the conversation
timestamp is the first message's timestamp, which is strictly later than the
minimum message timestamp, so "minimum over the whole list" is false. -/
theorem C2_counterexample :
    (parseFile cexC2).type = "chat" ∧ (parseFile cexC2).messages ≠ [] ∧
    (parseFile cexC2).timestamp ≠ minMsgTs (parseFile cexC2).messages := by
  refine ⟨by decide, by decide, by decide⟩

/-- Claim C2 (corrected): for every chat document with a non-empty extracted
message list, the conversation timestamp equals the timestamp of the FIRST
message in document order (which is the earliest only when the document lists
messages in ascending time order). -/
theorem C2_chat_timestamp (doc : GNode) (m : Message)
    (_hty : (parseFile doc).type = "chat")
    (hm : (parseFile doc).messages.head? = some m) :
    (parseFile doc).timestamp = m.timestamp := by
  have h0 : ∀ m0, initConversation.messages.head? = some m0 →
      initConversation.timestamp = m0.timestamp := by
    intro m0 hm0
    simp [initConversation] at hm0
  exact pfNode_inv initConversation doc h0 m hm

/-- Concrete message for the C2 witness. -/
def wC2m : Message := ⟨1640995205000000000, "Me", "+2222", "hi", []⟩

/-- Concrete document for the C2 witness. -/
def wC2doc : GNode :=
  .elem "html" []
    [ .elem "div" [("class", "hChatLog hfeed")]
        [ mkMsgNode "2022-01-01T00:00:05Z" "Me" "tel:+2222" "hi" ] ]

/-- Witness for `C2_chat_timestamp` at a concrete chat document. -/
theorem C2_chat_timestamp_witness :
    (parseFile wC2doc).type = "chat" ∧
    (parseFile wC2doc).messages.head? = some wC2m ∧
    (parseFile wC2doc).timestamp = wC2m.timestamp :=
  ⟨by decide, by decide, C2_chat_timestamp wC2doc wC2m (by decide) (by decide)⟩

/-! ## Claim C5: same-name participants -/

/-- A value with the `tel:` scheme is recognized as a phone link. -/
theorem goHasPfx_tel (p : String) : goHasPfx ("tel:" ++ p) "tel:" = true := by
  unfold goHasPfx
  rw [String.data_append]
  exact hasPfx_append _ _

/-- Document family with two identity markers: names `n1`, `n2` inside
`tel:` links for `p1`, `p2`. -/
def twoFnDoc (n1 p1 n2 p2 : String) : GNode :=
  .elem "div" []
    [ .elem "a" [("href", "tel:" ++ p1)] [ .elem "span" [("class", "fn")] [.text n1] ],
      .elem "a" [("href", "tel:" ++ p2)] [ .elem "span" [("class", "fn")] [.text n2] ] ]

/-- Document used to refute claim C5: the name `Bob` appears twice, with the
distinct numbers `+1` and `+2`. -/
def cexC5 : GNode := twoFnDoc "Bob" "+1" "Bob" "+2"

/-- Claim C5 counterexample: with two equal names and unequal `tel:` numbers
the extracted collection does NOT contain both pairs — the first number is
overwritten by the second. -/
theorem C5_counterexample :
    ¬ ("Bob", "+1") ∈ parseParticipants cexC5 ∧
    ("Bob", "+2") ∈ parseParticipants cexC5 := by
  constructor <;> decide

/-- Claim C5 (corrected): participants are keyed by display name alone.
Two markers with distinct trimmed names are both kept (even with equal
numbers); two markers with the same trimmed name collapse to a single entry
whose number comes from the marker seen last. -/
theorem C5_participant_identity (n1 p1 n2 p2 : String) :
    (goTrimSpace n1 ≠ goTrimSpace n2 →
      parseParticipants (twoFnDoc n1 p1 n2 p2)
        = [(goTrimSpace n1, p1), (goTrimSpace n2, p2)]) ∧
    (goTrimSpace n1 = goTrimSpace n2 →
      parseParticipants (twoFnDoc n1 p1 n2 p2) = [(goTrimSpace n2, p2)]) := by
  have hred : parseParticipants (twoFnDoc n1 p1 n2 p2)
      = upsert [(goTrimSpace n1, p1)] (goTrimSpace n2) p2 := by
    simp [parseParticipants, twoFnDoc, ppNode, ppList, extractText, extractTextRaw,
      extractTextRawL, extractPhoneNumber, goHasPfx_tel, goTrimPfx_tel, strAppendEmpty,
      upsert]
  constructor
  · intro hne
    rw [hred]
    simp [upsert, hne]
  · intro heq
    rw [hred]
    simp [upsert, heq]

/-- Witness for `C5_participant_identity` at concrete names and numbers. -/
theorem C5_participant_identity_witness :
    parseParticipants (twoFnDoc "Alice" "+1" "Bob" "+2") = [("Alice", "+1"), ("Bob", "+2")] ∧
    parseParticipants (twoFnDoc "Bob" "+1" "Bob" "+2") = [("Bob", "+2")] :=
  ⟨((C5_participant_identity "Alice" "+1" "Bob" "+2").1 (by decide)).trans (by decide),
   ((C5_participant_identity "Bob" "+1" "Bob" "+2").2 (by decide)).trans (by decide)⟩

/-! ## Claim C6: where the participant's phone number comes from -/

/-- Identity marker directly inside the `tel:` link element. -/
def fnUnderParentTel (name p : String) : GNode :=
  .elem "a" [("href", "tel:" ++ p)] [ .elem "span" [("class", "fn")] [.text name] ]

/-- Identity marker whose parent is a plain `span`; the `tel:` link is one
level further up (a strict ancestor that is not the parent). -/
def fnUnderGrandTel (name p : String) : GNode :=
  .elem "a" [("href", "tel:" ++ p)]
    [ .elem "span" [] [ .elem "span" [("class", "fn")] [.text name] ] ]

/-- Document used to refute claim C6. -/
def cexC6 : GNode := fnUnderGrandTel "Bob" "+1"

/-- Claim C6 counterexample: the `fn` node's grandparent — a proper ancestor
— carries `tel:+1`, yet the extracted number is the empty string, so
"nearest ancestor" and "empty only when no such ancestor exists" are both
false. -/
theorem C6_counterexample :
    parseParticipants cexC6 = [("Bob", "")] ∧
    extractPhoneNumber (attrsOf cexC6) = "+1" := by
  constructor <;> decide

/-- Claim C6 (corrected): the display name is the `fn` node's trimmed text
and the phone number is read from the IMMEDIATE PARENT element only — taken
(with `tel:` stripped) when that parent carries a `tel:`-scheme `href`, and
the empty string otherwise, even when a farther ancestor carries one. -/
theorem C6_phone_from_parent (name p : String) :
    parseParticipants (fnUnderParentTel name p) = [(goTrimSpace name, p)] ∧
    parseParticipants (fnUnderGrandTel name p) = [(goTrimSpace name, "")] := by
  constructor
  · simp [parseParticipants, fnUnderParentTel, ppNode, ppList, extractText,
      extractTextRaw, extractTextRawL, extractPhoneNumber, goHasPfx_tel,
      goTrimPfx_tel, strAppendEmpty, upsert]
  · simp [parseParticipants, fnUnderGrandTel, ppNode, ppList, extractText,
      extractTextRaw, extractTextRawL, extractPhoneNumber, goHasPfx_tel,
      goTrimPfx_tel, strAppendEmpty, upsert]

/-! ## Claim C9: participant names from the document title -/

/-- Document family holding only a `title` element with the given text. -/
def titleDoc (t : String) : GNode :=
  .elem "html" [] [ .elem "head" [] [ .elem "title" [] [.text t] ] ]

/-- Document used to refute claim C9: the title contains the separator
`" to "` twice. -/
def cexC9 : GNode := titleDoc "A to B to C"

/-- Claim C9 counterexample: this title contains the literal separator
`" to "`, yet no participant at all is recorded, because the split yields
three pieces rather than exactly two. -/
theorem C9_counterexample :
    goContains (goReplaceAll (goTrimSpace "A to B to C") "\n" " ") " to " = true ∧
    (parseFile cexC9).participants = [] := by
  constructor <;> decide

/-- Claim C9 (corrected): the two surrounding names are recorded (trimmed,
with empty numbers, each unless already present) exactly when the title text
— newlines replaced by spaces — splits on `" to "` into exactly two pieces,
i.e. contains exactly one occurrence of the separator; with two or more
occurrences nothing is added. -/
theorem C9_title_fallback (t a b : String)
    (h : goSplit (goReplaceAll (goTrimSpace t) "\n" " ") " to " = [a, b]) :
    alookup (parseFile (titleDoc t)).participants (goTrimSpace a) = some "" ∧
    alookup (parseFile (titleDoc t)).participants (goTrimSpace b) = some "" := by
  have h1 : parseFile (titleDoc t) = titleStep (.elem "title" [] [.text t]) initConversation := by
    simp [parseFile, titleDoc, pfNode, pfList]
  have h2 : extractTitle (.elem "title" [] [.text t]) = goTrimSpace t := by
    unfold extractTitle extractTitleN extractText
    simp [extractTextRaw, extractTextRawL, strAppendEmpty]
  rw [h1]
  unfold titleStep
  rw [h2]
  by_cases hab : goTrimSpace a = goTrimSpace b
  · simp [h, alookup, upsert, initConversation, hab]
  · simp [h, alookup, upsert, initConversation, hab]

/-- Witness for `C9_title_fallback` at a concrete title. -/
theorem C9_title_fallback_witness :
    goSplit (goReplaceAll (goTrimSpace "Me to Bob") "\n" " ") " to " = ["Me", "Bob"] ∧
    alookup (parseFile (titleDoc "Me to Bob")).participants "Me" = some "" ∧
    alookup (parseFile (titleDoc "Me to Bob")).participants "Bob" = some "" := by
  refine ⟨by decide, ?_, ?_⟩
  · exact (by decide : goTrimSpace "Me" = "Me") ▸
      (C9_title_fallback "Me to Bob" "Me" "Bob" (by decide)).1
  · exact (by decide : goTrimSpace "Bob" = "Bob") ▸
      (C9_title_fallback "Me to Bob" "Me" "Bob" (by decide)).2

/-! ## Claim C10: media attachment resolution (`findMediaFile`) -/

/-- Model of the `look` closure of `findMediaFile`: scan the (sorted)
directory listing for files matching the glob `"*" + glob + "*"` — substring
containment, since the tokens in scope carry no glob metacharacters — and
return the first one that is not an `.html` file. -/
def look (listing : List String) (glob : String) : Option String :=
  match listing with
  | [] => none
  | f :: rest =>
    if goContains f glob && !(goHasSfx f ".html") then some f else look rest glob

/-- Model of `findMediaFile` (the Go locals `last`/`lastParts` are inlined):
take the last space-separated token of the reference, `look` it up; on no
match, when the token splits on `"-"` into more than two pieces, drop the
last piece, rejoin and `look` once more; otherwise fail. -/
def findMediaFile (listing : List String) (relativePath : String) : Option String :=
  match look listing ((goSplit relativePath " ").getLastD "") with
  | some m => some m
  | none =>
    if (goSplit ((goSplit relativePath " ").getLastD "") "-").length > 2 then
      look listing
        (goJoin (goSplit ((goSplit relativePath " ").getLastD "") "-").dropLast "-")
    else none

/-- The trailing `-N` numeric-suffix strip that claim C10 describes: defined
exactly when the token ends in a dash followed by one or more digits. -/
def stripNumSfx (tok : String) : Option String :=
  let r := tok.data.reverse
  let ds := r.takeWhile (fun c => (digitVal c).isSome)
  if ds.isEmpty then none
  else
    match r.drop ds.length with
    | '-' :: before => some ⟨before.reverse⟩
    | _ => none

/-- Resolution exactly as claim C10 states it: on no match, strip the
trailing `-N` numeric suffix from the token and retry once. -/
def findMediaFileClaim (listing : List String) (relativePath : String) : Option String :=
  match look listing ((goSplit relativePath " ").getLastD "") with
  | some m => some m
  | none =>
    match stripNumSfx ((goSplit relativePath " ").getLastD "") with
    | some base => look listing base
    | none => none

/-- Claim C10 counterexample: for the reference `img-1` over the listing
`[img.jpg]` the claimed strategy strips the numeric suffix `-1` and finds
`img.jpg`, but the code never retries (the token has only two dash-separated
pieces) and fails. -/
theorem C10_counterexample :
    findMediaFile ["img.jpg"] "img-1" = none ∧
    findMediaFileClaim ["img.jpg"] "img-1" = some "img.jpg" := by
  constructor <;> decide

/-- Occurrences of the dash character in a token. -/
def dashCount (tok : String) : Nat := tok.data.count '-'

/-- First listed file containing the token, `.html` files excluded. -/
def firstMatch (listing : List String) (tok : String) : Option String :=
  listing.find? (fun f => goContains f tok && !(goHasSfx f ".html"))

/-- Resolution as amended claim C10 states it: last space-separated token;
first listed non-`.html` file containing it; if none and the token carries at
least two dashes (i.e. more than two dash-separated segments), drop the final
dash-separated segment — numeric or not — rejoin with dashes and retry
exactly once; otherwise fail. -/
def findMediaFileSpecA (listing : List String) (relativePath : String) : Option String :=
  match firstMatch listing ((goSplit relativePath " ").getLastD "") with
  | some m => some m
  | none =>
    if 2 ≤ dashCount ((goSplit relativePath " ").getLastD "") then
      firstMatch listing
        (goJoin (goSplit ((goSplit relativePath " ").getLastD "") "-").dropLast "-")
    else none

/-- The scan loop is the first-match search. -/
theorem look_eq_firstMatch (listing : List String) (glob : String) :
    look listing glob = firstMatch listing glob := by
  induction listing with
  | nil => rfl
  | cons f rest ih =>
    cases hq : (goContains f glob && !(goHasSfx f ".html")) with
    | true => simp [look, firstMatch, List.find?, hq]
    | false =>
      simp [look, firstMatch, List.find?, hq]
      simpa [firstMatch] using ih

/-- Splitting on the dash yields one piece more than the number of dashes. -/
theorem splitAux_dash_length : ∀ (fuel : Nat) (l acc : List Char), l.length ≤ fuel →
    (splitAux ['-'] fuel l acc).length = l.count '-' + 1
  | fuel, [], acc, _ => by cases fuel <;> simp [splitAux]
  | 0, c :: rest, _, h => by simp at h
  | fuel + 1, c :: rest, acc, h => by
    have hrest : rest.length ≤ fuel := by
      simp only [List.length_cons] at h
      omega
    by_cases hc : '-' = c
    · subst hc
      simp [splitAux, dropPfxO, splitAux_dash_length fuel rest [] hrest,
        List.count_cons]
    · simp [splitAux, dropPfxO, hc, splitAux_dash_length fuel rest (c :: acc) hrest,
        List.count_cons, Ne.symm hc]

/-- String-level version of `splitAux_dash_length`. -/
theorem goSplit_dash_length (s : String) : (goSplit s "-").length = dashCount s + 1 := by
  unfold goSplit dashCount
  rw [List.length_map]
  exact splitAux_dash_length _ _ _ (le_refl _)

/-- Claim C10 (corrected): `findMediaFile` implements exactly the amended
strategy `findMediaFileSpecA` — the retry fires only when the token has more
than two dash-separated segments, and it drops the final segment whether or
not it is numeric. -/
theorem C10_findMediaFile (listing : List String) (relativePath : String) :
    findMediaFile listing relativePath = findMediaFileSpecA listing relativePath := by
  unfold findMediaFile findMediaFileSpecA
  simp only [look_eq_firstMatch]
  cases hfm : firstMatch listing ((goSplit relativePath " ").getLastD "") with
  | some m => rfl
  | none =>
    have hiff : ((goSplit ((goSplit relativePath " ").getLastD "") "-").length > 2)
        ↔ (2 ≤ dashCount ((goSplit relativePath " ").getLastD "")) := by
      rw [goSplit_dash_length]
      omega
    by_cases hc : 2 ≤ dashCount ((goSplit relativePath " ").getLastD "")
    · rw [if_pos (hiff.mpr hc), if_pos hc]
    · rw [if_neg (fun hgt => hc (hiff.mp hgt)), if_neg hc]

/-! ## Claim C8: the driver skips documents with no recognized branch -/

/-- Outcome of opening and tree-building one input file: the open can fail,
the tree build can fail, or a tree is extracted into a `Conversation`. -/
inductive FileOutcome where
  | openErr
  | parseErr
  | ok (c : Conversation)

/-- One step of the driver's per-file loop (`main` in the source): the two
error paths log and skip; an extracted conversation whose `type` is empty
logs `failed to parse file correctly` and skips; otherwise the source file
name is recorded and the record is emitted. -/
def mainStep : String × FileOutcome → List Conversation × List String
  | (_, .openErr) => ([], ["error opening file"])
  | (_, .parseErr) => ([], ["error parsing file"])
  | (name, .ok c) =>
    if c.type = "" then ([], ["failed to parse file correctly"])
    else ([{ c with sourceFile := name }], [])

/-- Model of `main`'s loop: emitted records and log lines, in file order. -/
def mainLoop : List (String × FileOutcome) → List Conversation × List String
  | [] => ([], [])
  | f :: rest =>
    ((mainStep f).1 ++ (mainLoop rest).1, (mainStep f).2 ++ (mainLoop rest).2)

/-- Claim C8 (confirmed): a document that parses into a tree but whose
extracted type is empty contributes a log line and no output record, and the
remaining documents are still processed — before and after it, the driver's
outputs are unchanged. -/
theorem C8_empty_type_skipped (xs ys : List (String × FileOutcome))
    (name : String) (c : Conversation) (h : c.type = "") :
    mainLoop (xs ++ (name, .ok c) :: ys)
      = ((mainLoop xs).1 ++ (mainLoop ys).1,
         (mainLoop xs).2 ++ "failed to parse file correctly" :: (mainLoop ys).2) := by
  induction xs with
  | nil => simp [mainLoop, mainStep, h]
  | cons x xs ih => simp [mainLoop, ih]

/-- A record the C8 witness keeps. -/
def wC8a : Conversation :=
  ⟨"chat", [("Me", "+2222")], 1640995205000000000, "", [wC2m], "", ""⟩

/-- Another record the C8 witness keeps. -/
def wC8b : Conversation :=
  ⟨"missed_call", [("Dwigt Rortugal", "+66666")], 1253230001000000000, "", [], "", ""⟩

/-- Witness for `C8_empty_type_skipped` on a concrete three-file run whose
middle document extracts with an empty type. -/
theorem C8_empty_type_skipped_witness :
    initConversation.type = "" ∧
    mainLoop [("a.html", .ok wC8a), ("b.html", .ok initConversation), ("c.html", .ok wC8b)]
      = ((mainLoop [("a.html", .ok wC8a)]).1 ++ (mainLoop [("c.html", .ok wC8b)]).1,
         (mainLoop [("a.html", .ok wC8a)]).2
           ++ "failed to parse file correctly" :: (mainLoop [("c.html", .ok wC8b)]).2) :=
  ⟨rfl, C8_empty_type_skipped [("a.html", .ok wC8a)] [("c.html", .ok wC8b)]
      "b.html" initConversation rfl⟩

/-! ## Claim C4: every message sender is a participants key -/

/-- Does an attribute list carry `class="v"`? -/
def hasClassAttr (attrs : List (String × String)) (v : String) : Bool :=
  attrs.any (fun a => a.1 = "class" && a.2 = v)

/-- An element node carrying a `class="fn"` attribute — exactly the nodes
that `parseParticipants` records. -/
def isFnNode : GNode → Bool
  | .elem _ attrs _ => hasClassAttr attrs "fn"
  | .text _ => false

mutual
/-- Subtree membership is transitive. -/
theorem nodesOf_trans : ∀ (n c e : GNode), c ∈ nodesOf n → e ∈ nodesOf c → e ∈ nodesOf n
  | .text s, c, e, hc, he => by
    simp only [nodesOf, List.mem_singleton] at hc
    subst hc
    exact he
  | .elem t a cs, c, e, hc, he => by
    simp only [nodesOf, List.mem_cons] at hc ⊢
    cases hc with
    | inl h =>
      subst h
      simpa [nodesOf] using he
    | inr h => exact Or.inr (nodesOfL_trans cs c e h he)
/-- List version of `nodesOf_trans`. -/
theorem nodesOfL_trans : ∀ (cs : List GNode) (c e : GNode),
    c ∈ nodesOfL cs → e ∈ nodesOf c → e ∈ nodesOfL cs
  | [], c, e, hc, _ => by simp [nodesOfL] at hc
  | c0 :: cs, c, e, hc, he => by
    simp only [nodesOfL, List.mem_append] at hc ⊢
    cases hc with
    | inl h => exact Or.inl (nodesOf_trans c0 c e h he)
    | inr h => exact Or.inr (nodesOfL_trans cs c e h he)
end

/-- `upsert` writes its key. -/
theorem alookup_upsert_self (m : List (String × String)) (k v : String) :
    alookup (upsert m k v) k = some v := by
  induction m with
  | nil => simp [upsert, alookup]
  | cons kv rest ih =>
    by_cases h : kv.1 = k
    · simp [upsert, alookup, h]
    · simp [upsert, alookup, h, ih]

/-- `upsert` never removes a key. -/
theorem alookup_upsert_mono (m : List (String × String)) (k k2 v : String)
    (h : (alookup m k).isSome = true) : (alookup (upsert m k2 v) k).isSome = true := by
  induction m with
  | nil => simp [alookup] at h
  | cons kv rest ih =>
    by_cases h2 : kv.1 = k2
    · by_cases h1 : k2 = k
      · simp [upsert, alookup, h2, h1]
      · have hk : ¬ kv.1 = k := by rw [h2]; exact h1
        simp [alookup, hk] at h
        simp [upsert, alookup, h2, h1, h]
    · by_cases h1 : kv.1 = k
      · have hkk : ¬ k = k2 := by rw [← h1]; exact h2
        simp [upsert, alookup, h2, h1, hkk]
      · simp [alookup, h1] at h
        simp [upsert, alookup, h2, h1, ih h]

/-- The `class="fn"` attribute fold of the participants walk never removes a
key. -/
theorem fnFold_pres_isSome (attrs : List (String × String)) (nm num k : String)
    (m : List (String × String)) (h : (alookup m k).isSome = true) :
    (alookup (attrs.foldl
      (fun acc a => if a.1 = "class" && a.2 = "fn" then upsert acc nm num else acc) m)
      k).isSome = true := by
  refine foldl_inv (fun mm => (alookup mm k).isSome = true) _ ?_ attrs m h
  intro x b hx
  by_cases hb : b.1 = "class" && b.2 = "fn"
  · simpa [hb] using alookup_upsert_mono x k nm num hx
  · simpa [hb] using hx

/-- When some attribute is `class="fn"`, the fold records the name. -/
theorem fnFold_writes (attrs : List (String × String)) (nm num : String) :
    ∀ m, hasClassAttr attrs "fn" = true →
    (alookup (attrs.foldl
      (fun acc a => if a.1 = "class" && a.2 = "fn" then upsert acc nm num else acc) m)
      nm).isSome = true := by
  induction attrs with
  | nil => intro m h; simp [hasClassAttr] at h
  | cons a rest ih =>
    intro m h
    by_cases ha : a.1 = "class" && a.2 = "fn"
    · rw [List.foldl_cons, if_pos ha]
      exact fnFold_pres_isSome rest nm num nm (upsert m nm num)
        (by simp [alookup_upsert_self])
    · rw [List.foldl_cons, if_neg ha]
      apply ih
      simp only [hasClassAttr, List.any_cons, Bool.or_eq_true] at h
      rcases h with h | h
      · exact absurd h ha
      · simpa [hasClassAttr] using h

mutual
/-- The participants walk never removes a key. -/
theorem ppNode_mono : ∀ (m pa : List (String × String)) (n : GNode) (k : String),
    (alookup m k).isSome = true → (alookup (ppNode m pa n) k).isSome = true
  | _, _, .text _, _, h => h
  | m, pa, .elem t attrs cs, k, h => by
    simp only [ppNode]
    exact ppList_mono _ attrs cs k (fnFold_pres_isSome attrs _ _ k m h)
/-- List version of `ppNode_mono`. -/
theorem ppList_mono : ∀ (m pa : List (String × String)) (cs : List GNode) (k : String),
    (alookup m k).isSome = true → (alookup (ppList m pa cs) k).isSome = true
  | _, _, [], _, h => h
  | m, pa, c :: cs, k, h => ppList_mono _ pa cs k (ppNode_mono m pa c k h)
end

mutual
/-- Every `class="fn"` element of the walked subtree ends up as a key of the
participants map. -/
theorem ppNode_fnMem : ∀ (m pa : List (String × String)) (n e : GNode),
    e ∈ nodesOf n → isFnNode e = true →
    (alookup (ppNode m pa n) (extractText e)).isSome = true
  | m, pa, .text s, e, he, hfn => by
    simp only [nodesOf, List.mem_singleton] at he
    subst he
    simp [isFnNode] at hfn
  | m, pa, .elem t attrs cs, e, he, hfn => by
    simp only [nodesOf, List.mem_cons] at he
    simp only [ppNode]
    cases he with
    | inl h =>
      subst h
      simp only [isFnNode] at hfn
      exact ppList_mono _ attrs cs _ (fnFold_writes attrs _ _ m hfn)
    | inr h => exact ppList_fnMem _ attrs cs e h hfn
/-- List version of `ppNode_fnMem`. -/
theorem ppList_fnMem : ∀ (m pa : List (String × String)) (cs : List GNode) (e : GNode),
    e ∈ nodesOfL cs → isFnNode e = true →
    (alookup (ppList m pa cs) (extractText e)).isSome = true
  | _, _, [], e, he, _ => by simp [nodesOfL] at he
  | m, pa, c :: cs, e, he, hfn => by
    simp only [nodesOfL, List.mem_append] at he
    cases he with
    | inl h => exact ppList_mono _ pa cs _ (ppNode_fnMem m pa c e h hfn)
    | inr h => exact ppList_fnMem _ pa cs e h hfn
end

/-- Any `class="fn"` element below the chat-log `div` is a key of
`parseParticipants` of that `div`. -/
theorem parseParticipants_fnMem (n e : GNode) (he : e ∈ nodesOf n)
    (hfn : isFnNode e = true) :
    (alookup (parseParticipants n) (extractText e)).isSome = true :=
  ppNode_fnMem [] [] n e he hfn

/-- Extending an attribute list keeps `hasClassAttr`. -/
theorem hasClassAttr_cons (a : String × String) (rest : List (String × String)) (v : String)
    (h : hasClassAttr rest v = true) : hasClassAttr (a :: rest) v = true := by
  simp only [hasClassAttr, List.any_cons, Bool.or_eq_true]
  exact Or.inr (by simpa [hasClassAttr] using h)

/-- The sender-overwriting attribute fold of `parseSenderAndNumber` either
leaves the sender alone or sets it to the node's text, and the latter only
when a `class="fn"` attribute is present. -/
theorem senderFold (attrs : List (String × String)) (X : String) :
    ∀ (st : String × String),
    (attrs.foldl (fun s a => if a.1 = "class" && a.2 = "fn" then (X, s.2) else s) st).1 = st.1 ∨
    ((attrs.foldl (fun s a => if a.1 = "class" && a.2 = "fn" then (X, s.2) else s) st).1 = X ∧
      hasClassAttr attrs "fn" = true) := by
  induction attrs with
  | nil => intro st; left; rfl
  | cons a rest ih =>
    intro st
    by_cases ha : a.1 = "class" && a.2 = "fn"
    · rw [List.foldl_cons, if_pos ha]
      rcases ih (X, st.2) with h | ⟨h, _⟩
      · right; exact ⟨h, by simp [hasClassAttr, List.any_cons, ha]⟩
      · right; exact ⟨h, by simp [hasClassAttr, List.any_cons, ha]⟩
    · rw [List.foldl_cons, if_neg ha]
      rcases ih st with h | ⟨h, hc⟩
      · left; exact h
      · right; exact ⟨h, hasClassAttr_cons a rest "fn" hc⟩

/-- The number-overwriting attribute fold of `parseSenderAndNumber` never
touches the sender. -/
theorem numberFold_fst (attrs : List (String × String)) (st : String × String) :
    (attrs.foldl
      (fun s a => if a.1 = "href" && goHasPfx a.2 "tel:" then (s.1, goTrimPfx a.2 "tel:") else s)
      st).1 = st.1 :=
  foldl_pres Prod.fst _
    (fun x b => by by_cases hb : b.1 = "href" && goHasPfx b.2 "tel:" <;> simp [hb]) attrs st

mutual
/-- A non-trivial sender produced by the `parseSenderAndNumber` walk is the
text of some `class="fn"` element of the walked subtree. -/
theorem psanNode_sender : ∀ (st : String × String) (n : GNode),
    (psanNode st n).1 = st.1 ∨
    ∃ e ∈ nodesOf n, isFnNode e = true ∧ extractText e = (psanNode st n).1
  | _, .text _ => by left; rfl
  | st, .elem tag attrs cs => by
    have hl := psanList_sender
      (if tag = "abbr" || tag = "span" then
        attrs.foldl
          (fun s a =>
            if a.1 = "class" && a.2 = "fn" then (extractText (.elem tag attrs cs), s.2)
            else s) st
      else if tag = "a" then
        attrs.foldl
          (fun s a =>
            if a.1 = "href" && goHasPfx a.2 "tel:" then (s.1, goTrimPfx a.2 "tel:")
            else s) st
      else st) cs
    simp only [psanNode]
    rcases hl with h | ⟨e, he, hfn, hex⟩
    · rw [h]
      split
      · rcases senderFold attrs (extractText (.elem tag attrs cs)) st with h2 | ⟨h2, hc⟩
        · left; exact h2
        · right
          refine ⟨.elem tag attrs cs, ?_, ?_, h2.symm⟩
          · simp [nodesOf]
          · simpa [isFnNode] using hc
      · split
        · left; exact numberFold_fst attrs st
        · left; rfl
    · right
      refine ⟨e, ?_, hfn, hex⟩
      simp only [nodesOf, List.mem_cons]
      exact Or.inr he
/-- List version of `psanNode_sender`. -/
theorem psanList_sender : ∀ (st : String × String) (cs : List GNode),
    (psanList st cs).1 = st.1 ∨
    ∃ e ∈ nodesOfL cs, isFnNode e = true ∧ extractText e = (psanList st cs).1
  | _, [] => by left; rfl
  | st, c :: cs => by
    simp only [psanList]
    rcases psanList_sender (psanNode st c) cs with h | ⟨e, he, hfn, hex⟩
    · rw [h]
      rcases psanNode_sender st c with h2 | ⟨e, he, hfn, hex⟩
      · left; exact h2
      · right
        refine ⟨e, ?_, hfn, hex⟩
        simp only [nodesOfL, List.mem_append]
        exact Or.inl he
    · right
      refine ⟨e, ?_, hfn, hex⟩
      simp only [nodesOfL, List.mem_append]
      exact Or.inr he
end

/-- The message-timestamp attribute fold never touches the sender. -/
theorem tsFold_sender (attrs : List (String × String)) (msg : Message) :
    (attrs.foldl
      (fun m a => if a.1 = "class" && a.2 = "dt" then { m with timestamp := parseMessageTimestamp attrs } else m)
      msg).sender = msg.sender :=
  foldl_pres Message.sender _
    (fun x b => by by_cases hb : b.1 = "class" && b.2 = "dt" <;> simp [hb]) attrs msg

/-- The image attribute fold never touches the sender. -/
theorem imgFold_sender (attrs : List (String × String)) (msg : Message) :
    (attrs.foldl
      (fun m a => if a.1 = "src" then { m with images := m.images ++ [a.2] } else m)
      msg).sender = msg.sender :=
  foldl_pres Message.sender _
    (fun x b => by by_cases hb : b.1 = "src" <;> simp [hb]) attrs msg

mutual
/-- A sender produced by the `parseMessage` walk is either the incoming one
or comes from `parseSenderAndNumber` of some node of the walked subtree. -/
theorem pmNode_sender : ∀ (msg : Message) (n : GNode),
    (pmNode msg n).sender = msg.sender ∨
    ∃ c ∈ nodesOf n, (parseSenderAndNumber c).1 = (pmNode msg n).sender
  | _, .text _ => by left; rfl
  | msg, .elem tag attrs cs => by
    have hl := pmList_sender
      (if tag = "abbr" then
        attrs.foldl
          (fun m a =>
            if a.1 = "class" && a.2 = "dt" then { m with timestamp := parseMessageTimestamp attrs }
            else m) msg
      else if tag = "cite" then
        { msg with sender := (parseSenderAndNumber (.elem tag attrs cs)).1,
                   senderNumber := (parseSenderAndNumber (.elem tag attrs cs)).2 }
      else if tag = "q" then { msg with content := extractText (.elem tag attrs cs) }
      else if tag = "img" then
        attrs.foldl
          (fun m a => if a.1 = "src" then { m with images := m.images ++ [a.2] } else m) msg
      else msg) cs
    simp only [pmNode]
    rcases hl with h | ⟨c, hc, hpc⟩
    · rw [h]
      split
      · left; exact tsFold_sender attrs msg
      split
      · right
        refine ⟨.elem tag attrs cs, ?_, rfl⟩
        simp [nodesOf]
      split
      · left; rfl
      split
      · left; exact imgFold_sender attrs msg
      · left; rfl
    · right
      refine ⟨c, ?_, hpc⟩
      simp only [nodesOf, List.mem_cons]
      exact Or.inr hc
/-- List version of `pmNode_sender`. -/
theorem pmList_sender : ∀ (msg : Message) (cs : List GNode),
    (pmList msg cs).sender = msg.sender ∨
    ∃ c ∈ nodesOfL cs, (parseSenderAndNumber c).1 = (pmList msg cs).sender
  | _, [] => by left; rfl
  | msg, c0 :: cs => by
    simp only [pmList]
    rcases pmList_sender (pmNode msg c0) cs with h | ⟨c, hc, hpc⟩
    · rw [h]
      rcases pmNode_sender msg c0 with h2 | ⟨c, hc, hpc⟩
      · left; exact h2
      · right
        refine ⟨c, ?_, hpc⟩
        simp only [nodesOfL, List.mem_append]
        exact Or.inl hc
    · right
      refine ⟨c, ?_, hpc⟩
      simp only [nodesOfL, List.mem_append]
      exact Or.inr hc
end

/-- The message-collection attribute fold only appends the given message. -/
theorem msgFold_mem (attrs : List (String × String)) (x : Message) :
    ∀ (acc : List Message) (msg : Message),
    msg ∈ attrs.foldl
      (fun l a => if a.1 = "class" && a.2 = "message" then l ++ [x] else l) acc →
    msg ∈ acc ∨ msg = x := by
  induction attrs with
  | nil => intro acc msg h; left; exact h
  | cons a rest ih =>
    intro acc msg h
    rw [List.foldl_cons] at h
    by_cases ha : a.1 = "class" && a.2 = "message"
    · rw [if_pos ha] at h
      rcases ih (acc ++ [x]) msg h with h2 | h2
      · rcases List.mem_append.mp h2 with h3 | h3
        · left; exact h3
        · right; simpa using h3
      · right; exact h2
    · rw [if_neg ha] at h
      exact ih acc msg h

mutual
/-- Every message collected by the `parseMessages` walk is `parseMessage` of
some node of the walked subtree (or was already in the accumulator). -/
theorem pmsNode_mem : ∀ (acc : List Message) (n : GNode) (msg : Message),
    msg ∈ pmsNode acc n → msg ∈ acc ∨ ∃ m ∈ nodesOf n, msg = parseMessage m
  | _, .text _, _, h => by left; exact h
  | acc, .elem tag attrs cs, msg, h => by
    simp only [pmsNode] at h
    rcases pmsList_mem
      (if tag = "div" then
        attrs.foldl
          (fun l a =>
            if a.1 = "class" && a.2 = "message" then l ++ [parseMessage (.elem tag attrs cs)]
            else l) acc
      else acc) cs msg h with h2 | ⟨m, hm, he⟩
    · split at h2
      · rcases msgFold_mem attrs (parseMessage (.elem tag attrs cs)) acc msg h2 with h3 | h3
        · left; exact h3
        · right
          refine ⟨.elem tag attrs cs, ?_, h3⟩
          simp [nodesOf]
      · left; exact h2
    · right
      refine ⟨m, ?_, he⟩
      simp only [nodesOf, List.mem_cons]
      exact Or.inr hm
/-- List version of `pmsNode_mem`. -/
theorem pmsList_mem : ∀ (acc : List Message) (cs : List GNode) (msg : Message),
    msg ∈ pmsList acc cs → msg ∈ acc ∨ ∃ m ∈ nodesOfL cs, msg = parseMessage m
  | _, [], _, h => by left; exact h
  | acc, c :: cs, msg, h => by
    simp only [pmsList] at h
    rcases pmsList_mem (pmsNode acc c) cs msg h with h2 | ⟨m, hm, he⟩
    · rcases pmsNode_mem acc c msg h2 with h3 | ⟨m, hm, he⟩
      · left; exact h3
      · right
        refine ⟨m, ?_, he⟩
        simp only [nodesOfL, List.mem_append]
        exact Or.inl hm
    · right
      refine ⟨m, ?_, he⟩
      simp only [nodesOfL, List.mem_append]
      exact Or.inr hm
end

/-- A non-empty sender of a collected message is the trimmed text of some
`class="fn"` element inside the chat-log subtree. -/
theorem parseMessages_sender (n : GNode) (msg : Message)
    (hmem : msg ∈ parseMessages n) (hs : msg.sender ≠ "") :
    ∃ e ∈ nodesOf n, isFnNode e = true ∧ extractText e = msg.sender := by
  rcases pmsNode_mem [] n msg hmem with h | ⟨m, hm, he⟩
  · simp at h
  · subst he
    rcases pmNode_sender initMessage m with h2 | ⟨c, hc, hpc⟩
    · exact absurd h2 hs
    · rcases psanNode_sender ("", "") c with h3 | ⟨e, he2, hfn, hex⟩
      · rw [show (parseSenderAndNumber c).1 = (psanNode ("", "") c).1 from rfl, h3] at hpc
        exact absurd hpc.symm hs
      · exact ⟨e, nodesOf_trans n m e hm (nodesOf_trans m c e hc he2), hfn, hex.trans hpc⟩

/-- Merging a map into another keeps every key of the merged-in map. -/
theorem mergeParts_mem (new : List (String × String)) :
    ∀ (old : List (String × String)) (k : String),
    (alookup new k).isSome = true →
    (alookup (mergeParts old new) k).isSome = true := by
  induction new with
  | nil => intro old k h; simp [alookup] at h
  | cons kv rest ih =>
    intro old k h
    rcases kv with ⟨k1, v1⟩
    simp only [mergeParts, List.foldl_cons]
    by_cases hk : k1 = k
    · refine foldl_inv (fun mm => (alookup mm k).isSome = true) _ ?_ rest (upsert old k1 v1) ?_
      · intro x b hx
        exact alookup_upsert_mono x k b.1 b.2 hx
      · rw [hk]
        simp [alookup_upsert_self]
    · simp only [alookup, hk, if_neg] at h
      exact ih (upsert old k1 v1) k h

/-- The `title` handler never removes a participants key. -/
theorem titleStep_participants_mono (n : GNode) (conv : Conversation) (k : String)
    (h : (alookup conv.participants k).isSome = true) :
    (alookup (titleStep n conv).participants k).isSome = true := by
  simp only [titleStep]
  repeat' split
  all_goals first
    | exact h
    | exact alookup_upsert_mono _ _ _ _ h
    | exact alookup_upsert_mono _ _ _ _ (alookup_upsert_mono _ _ _ _ h)

/-- The invariant the claim asks for: every collected message with a
non-empty sender has that sender among the participants keys. -/
def convInv (c : Conversation) : Prop :=
  ∀ msg ∈ c.messages, msg.sender ≠ "" →
    (alookup c.participants msg.sender).isSome = true

/-- The invariant survives the `title` handler. -/
theorem titleStep_convInv (n : GNode) (conv : Conversation) (h : convInv conv) :
    convInv (titleStep n conv) := by
  intro msg hmem hs
  rw [titleStep_messages] at hmem
  exact titleStep_participants_mono n conv msg.sender (h msg hmem hs)

/-- The invariant survives the `div` handler of `parseFile`. -/
theorem pfDivStep_convInv (n : GNode) (conv : Conversation) (a : String × String)
    (h : convInv conv) : convInv (pfDivStep n conv a) := by
  unfold pfDivStep
  split
  · split
    · intro msg hmem hs
      cases hp : parseMessages n with
      | nil =>
        simp only [hp] at hmem
        simp at hmem
      | cons m0 rest =>
        simp only [hp] at hmem
        have hmem2 : msg ∈ parseMessages n := by rw [hp]; simpa using hmem
        rcases parseMessages_sender n msg hmem2 hs with ⟨e, he, hfn, hex⟩
        have hpp := parseParticipants_fnMem n e he hfn
        rw [hex] at hpp
        simpa using mergeParts_mem (parseParticipants n) conv.participants msg.sender hpp
    · split
      · intro msg hmem _
        rw [parseCallOrVoicemail_messages n] at hmem
        simp at hmem
      · exact h
  · exact h

mutual
/-- The invariant survives the whole `parseFile` walk. -/
theorem pfNode_convInv : ∀ (conv : Conversation) (n : GNode),
    convInv conv → convInv (pfNode conv n)
  | conv, .text _, h => h
  | conv, .elem tag attrs cs, h => by
    simp only [pfNode]
    apply pfList_convInv _ cs
    split
    · exact titleStep_convInv _ conv h
    split
    · exact foldl_inv convInv (pfDivStep (.elem tag attrs cs))
        (fun x b hx => pfDivStep_convInv (.elem tag attrs cs) x b hx) attrs conv h
    · exact h
/-- List version of `pfNode_convInv`. -/
theorem pfList_convInv : ∀ (conv : Conversation) (cs : List GNode),
    convInv conv → convInv (pfList conv cs)
  | _, [], h => h
  | conv, c :: cs, h => pfList_convInv (pfNode conv c) cs (pfNode_convInv conv c h)
end

/-- Claim C4 (confirmed): in every chat document, every extracted message
whose sender is non-empty has that sender among the keys of the
conversation's participants mapping. -/
theorem C4_sender_in_participants (doc : GNode) (msg : Message)
    (_hty : (parseFile doc).type = "chat")
    (hmem : msg ∈ (parseFile doc).messages) (hs : msg.sender ≠ "") :
    (alookup (parseFile doc).participants msg.sender).isSome = true := by
  have h0 : convInv initConversation := by
    intro m hm _
    simp [initConversation] at hm
  exact pfNode_convInv initConversation doc h0 msg hmem hs

/-- Concrete message for the C4 witness. -/
def wC4m : Message := ⟨1640995205000000000, "Me", "+2222", "hi", []⟩

/-- Concrete chat document for the C4 witness. -/
def wC4doc : GNode :=
  .elem "html" []
    [ .elem "div" [("class", "hChatLog hfeed")]
        [ mkMsgNode "2022-01-01T00:00:05Z" "Me" "tel:+2222" "hi" ] ]

/-- Witness for `C4_sender_in_participants` at a concrete chat document. -/
theorem C4_sender_in_participants_witness :
    (parseFile wC4doc).type = "chat" ∧ wC4m ∈ (parseFile wC4doc).messages ∧
    wC4m.sender ≠ "" ∧
    (alookup (parseFile wC4doc).participants wC4m.sender).isSome = true :=
  ⟨by decide, by decide, by decide,
   C4_sender_in_participants wC4doc wC4m (by decide) (by decide) (by decide)⟩

/-! ## Claim C3: exact-set grouping of the Reconciler.
The Reconciler itself is not under src/ (the repository ships only the
extractor and a row-browsing viewer), so the streaming grouping pass is
modelled from the specification's own description in section 4.2. -/

/-- Boolean subset test on contact-id lists. -/
def subsetB (xs ys : List Nat) : Bool := xs.all (fun x => ys.contains x)

/-- Boolean exact-set test: equality of member sets. -/
def sameSetB (xs ys : List Nat) : Bool := subsetB xs ys && subsetB ys xs

/-- Record a contact id when unseen (the independent membership tracking the
spec describes). -/
def insertNew (x : Nat) (l : List Nat) : List Nat := if l.contains x then l else x :: l

/-- Modelled from the spec: the running accumulator of the streaming
reconciler — current conversation id, contact ids seen so far, the validity
flag, and the conversation ids already folded into the group (reversed). -/
structure RecState where
  cur : Option Nat
  seen : List Nat
  valid : Bool
  acc : List Nat

/-- Modelled from the spec: close out the conversation in progress — it is
folded into the Group exactly when the validity flag survived and the
accumulated contact set equals the target set (exact-size, exact-membership
match). -/
def closeOut (target : List Nat) (st : RecState) : List Nat :=
  match st.cur with
  | none => st.acc
  | some cid => if st.valid && sameSetB st.seen target then cid :: st.acc else st.acc

/-- Modelled from the spec: consume one participant row (conversation id,
contact id): on the same conversation, track membership and clear the
validity flag on any contact id outside the target set; on a changed
conversation id, close out the previous conversation and start accumulating
the new one. -/
def stepRow (target : List Nat) (st : RecState) (row : Nat × Nat) : RecState :=
  if st.cur = some row.1 then
    { st with seen := insertNew row.2 st.seen,
              valid := st.valid && target.contains row.2 }
  else
    { cur := some row.1, seen := [row.2], valid := target.contains row.2,
      acc := closeOut target st }

/-- Modelled from the spec: the streaming grouping pass over participant rows
ordered by conversation identifier, returning the conversation ids folded
into the Group queried for `target`. -/
def foldConversations (target : List Nat) (rows : List (Nat × Nat)) : List Nat :=
  (closeOut target (rows.foldl (stepRow target) ⟨none, [], true, []⟩)).reverse

/-- The participant rows of one conversation's block. -/
def blockRows (b : Nat × List Nat) : List (Nat × Nat) := b.2.map (fun c => (b.1, c))

/-- Participant rows grouped by conversation id — the "ordered by
conversation identifier" input shape the spec requires. -/
def rowsOfBlocks : List (Nat × List Nat) → List (Nat × Nat)
  | [] => []
  | b :: bs => blockRows b ++ rowsOfBlocks bs

/-- Bridge between the Boolean `contains` and membership. -/
theorem contains_iff (l : List Nat) (x : Nat) : l.contains x = true ↔ x ∈ l := by
  simp [List.contains]

/-- `subsetB` means membership-wise inclusion. -/
theorem subsetB_iff (xs ys : List Nat) : subsetB xs ys = true ↔ ∀ x ∈ xs, x ∈ ys := by
  simp [subsetB, List.all_eq_true, contains_iff]

/-- Booleans with equivalent truth are equal. -/
theorem boolEqOfIff {a b : Bool} (h : a = true ↔ b = true) : a = b := by
  cases a <;> cases b <;> simp_all

/-- `subsetB` only depends on the member set of its left argument. -/
theorem subsetB_congr_left (A B target : List Nat) (h : ∀ x, x ∈ A ↔ x ∈ B) :
    subsetB A target = subsetB B target := by
  apply boolEqOfIff
  rw [subsetB_iff, subsetB_iff]
  constructor
  · intro hs x hx
    exact hs x ((h x).mpr hx)
  · intro hs x hx
    exact hs x ((h x).mp hx)

/-- `subsetB` only depends on the member set of its right argument. -/
theorem subsetB_congr_right (target A B : List Nat) (h : ∀ x, x ∈ A ↔ x ∈ B) :
    subsetB target A = subsetB target B := by
  apply boolEqOfIff
  rw [subsetB_iff, subsetB_iff]
  constructor
  · intro hs x hx
    exact (h _).mp (hs x hx)
  · intro hs x hx
    exact (h _).mpr (hs x hx)

/-- `sameSetB` only depends on the member set of its left argument. -/
theorem sameSetB_congr_left (A B target : List Nat) (h : ∀ x, x ∈ A ↔ x ∈ B) :
    sameSetB A target = sameSetB B target := by
  unfold sameSetB
  rw [subsetB_congr_left A B target h, subsetB_congr_right target A B h]

/-- Membership after folding `insertNew`. -/
theorem mem_seenFold (cs : List Nat) : ∀ (s : List Nat) (x : Nat),
    x ∈ cs.foldl (fun s c => insertNew c s) s ↔ x ∈ s ∨ x ∈ cs := by
  induction cs with
  | nil => simp
  | cons c cs ih =>
    intro s x
    rw [List.foldl_cons, ih (insertNew c s) x]
    unfold insertNew
    by_cases hc : s.contains c
    · have hcs : c ∈ s := (contains_iff s c).mp hc
      rw [if_pos hc]
      constructor
      · rintro (h | h)
        · exact Or.inl h
        · exact Or.inr (List.mem_cons_of_mem c h)
      · rintro (h | h)
        · exact Or.inl h
        · rcases List.mem_cons.mp h with rfl | h2
          · exact Or.inl hcs
          · exact Or.inr h2
    · rw [if_neg hc]
      simp only [List.mem_cons]
      tauto

/-- The validity flag after a block is the all-in-target test. -/
theorem validFold (target : List Nat) (cs : List Nat) : ∀ (v : Bool),
    cs.foldl (fun v c => v && target.contains c) v
      = (v && cs.all (fun c => target.contains c)) := by
  induction cs with
  | nil => intro v; simp
  | cons c cs ih =>
    intro v
    rw [List.foldl_cons, List.all_cons, ih (v && target.contains c), Bool.and_assoc]

/-- Rows of one conversation fold into pure seen/valid accumulation. -/
theorem foldl_stepRow_same (target : List Nat) (cid : Nat) :
    ∀ (cs : List Nat) (st : RecState), st.cur = some cid →
    (cs.map (fun c => (cid, c))).foldl (stepRow target) st
      = { st with seen := cs.foldl (fun s c => insertNew c s) st.seen,
                  valid := cs.foldl (fun v c => v && target.contains c) st.valid }
  | [], st, _ => by simp
  | c :: cs, st, h => by
    rw [List.map_cons, List.foldl_cons]
    have hstep : stepRow target st (cid, c)
        = { st with seen := insertNew c st.seen, valid := st.valid && target.contains c } := by
      unfold stepRow
      rw [if_pos h]
    rw [hstep, foldl_stepRow_same target cid cs _ (by simp [h] : _ = some cid)]
    rfl

/-- A whole block processed from a state on a different conversation. -/
theorem foldl_stepRow_block (target : List Nat) (cid c0 : Nat) (cs : List Nat)
    (st : RecState) (hne : st.cur ≠ some cid) :
    (blockRows (cid, c0 :: cs)).foldl (stepRow target) st
      = { cur := some cid,
          seen := cs.foldl (fun s c => insertNew c s) [c0],
          valid := cs.foldl (fun v c => v && target.contains c) (target.contains c0),
          acc := closeOut target st } := by
  unfold blockRows
  rw [List.map_cons, List.foldl_cons]
  have hstep : stepRow target st (cid, c0)
      = { cur := some cid, seen := [c0], valid := target.contains c0,
          acc := closeOut target st } := by
    unfold stepRow
    rw [if_neg hne]
  rw [hstep, foldl_stepRow_same target cid cs _ rfl]

/-- Closing out a processed block folds the conversation in exactly when its
contact set equals the target set. -/
theorem closeOut_block (target : List Nat) (cid c0 : Nat) (cs acc2 : List Nat) :
    closeOut target
      { cur := some cid,
        seen := cs.foldl (fun s c => insertNew c s) [c0],
        valid := cs.foldl (fun v c => v && target.contains c) (target.contains c0),
        acc := acc2 }
      = if sameSetB (c0 :: cs) target = true then cid :: acc2 else acc2 := by
  simp only [closeOut]
  rw [validFold]
  have hseen : sameSetB (cs.foldl (fun s c => insertNew c s) [c0]) target
      = sameSetB (c0 :: cs) target := by
    apply sameSetB_congr_left
    intro x
    rw [mem_seenFold]
    simp [List.mem_cons]
  rw [hseen]
  have habs : ((target.contains c0 && cs.all (fun c => target.contains c))
      && sameSetB (c0 :: cs) target) = sameSetB (c0 :: cs) target := by
    have h1 : (target.contains c0 && cs.all (fun c => target.contains c))
        = subsetB (c0 :: cs) target := by
      simp [subsetB, List.all_cons]
    rw [h1]
    unfold sameSetB
    cases subsetB (c0 :: cs) target <;> cases subsetB target (c0 :: cs) <;> rfl
  rw [habs]

/-- With distinct conversation ids, a conversation's contact list is unique. -/
theorem assoc_unique : ∀ (bs : List (Nat × List Nat)), (bs.map Prod.fst).Nodup →
    ∀ (cid : Nat) (cs cs' : List Nat), (cid, cs) ∈ bs → (cid, cs') ∈ bs → cs = cs'
  | [], _, _, _, _, h1, _ => by simp at h1
  | b :: bs, hnd, cid, cs, cs', h1, h2 => by
    rw [List.map_cons, List.nodup_cons] at hnd
    rcases List.mem_cons.mp h1 with rfl | h1t
    · rcases List.mem_cons.mp h2 with h2h | h2t
      · injection h2h with _ hsnd
        exact hsnd.symm
      · exact absurd (List.mem_map_of_mem Prod.fst h2t) (by simpa using hnd.1)
    · rcases List.mem_cons.mp h2 with rfl | h2t
      · exact absurd (List.mem_map_of_mem Prod.fst h1t) (by simpa using hnd.1)
      · exact assoc_unique bs hnd.2 cid cs cs' h1t h2t

/-- The streaming pass, block by block: a conversation id is emitted exactly
when it was already closed out or its block's contact set equals the target
set. -/
theorem foldConversations_spec (target : List Nat) :
    ∀ (bs : List (Nat × List Nat)) (st : RecState) (x : Nat),
    (∀ b ∈ bs, b.2 ≠ []) →
    (∀ b ∈ bs, st.cur ≠ some b.1) →
    (bs.map Prod.fst).Nodup →
    (x ∈ closeOut target ((rowsOfBlocks bs).foldl (stepRow target) st) ↔
      x ∈ closeOut target st ∨ ∃ cs, (x, cs) ∈ bs ∧ sameSetB cs target = true)
  | [], st, x, _, _, _ => by simp [rowsOfBlocks]
  | (cid, cs0) :: bs, st, x, hne, hcur, hnd => by
    cases cs0 with
    | nil => exact absurd rfl (hne (cid, []) (List.mem_cons_self _ _))
    | cons c0 cs =>
      rw [List.map_cons, List.nodup_cons] at hnd
      have hhead : cid ∉ bs.map Prod.fst := by simpa using hnd.1
      have ih := foldConversations_spec target bs
        { cur := some cid,
          seen := cs.foldl (fun s c => insertNew c s) [c0],
          valid := cs.foldl (fun v c => v && target.contains c) (target.contains c0),
          acc := closeOut target st } x
        (fun b hb => hne b (List.mem_cons_of_mem _ hb))
        (fun b hb heq => hhead (by
          rw [show cid = b.1 from Option.some.inj heq]
          exact List.mem_map_of_mem Prod.fst hb))
        hnd.2
      rw [rowsOfBlocks, List.foldl_append,
        foldl_stepRow_block target cid c0 cs st
          (hcur (cid, c0 :: cs) (List.mem_cons_self _ _)),
        ih, closeOut_block]
      by_cases hsame : sameSetB (c0 :: cs) target = true
      · rw [if_pos hsame]
        simp only [List.mem_cons, Prod.mk.injEq]
        constructor
        · rintro (hc | ⟨cs', h1, h2⟩)
          · rcases hc with rfl | hx
            · exact Or.inr ⟨c0 :: cs, Or.inl ⟨rfl, rfl⟩, hsame⟩
            · exact Or.inl hx
          · exact Or.inr ⟨cs', Or.inr h1, h2⟩
        · rintro (hx | ⟨cs', h1, h2⟩)
          · exact Or.inl (Or.inr hx)
          · rcases h1 with ⟨rfl, rfl⟩ | h1
            · exact Or.inl (Or.inl rfl)
            · exact Or.inr ⟨cs', h1, h2⟩
      · rw [if_neg hsame]
        simp only [List.mem_cons, Prod.mk.injEq]
        constructor
        · rintro (hx | ⟨cs', h1, h2⟩)
          · exact Or.inl hx
          · exact Or.inr ⟨cs', Or.inr h1, h2⟩
        · rintro (hx | ⟨cs', h1, h2⟩)
          · exact Or.inl hx
          · rcases h1 with ⟨rfl, rfl⟩ | h1
            · exact absurd h2 hsame
            · exact Or.inr ⟨cs', h1, h2⟩

/-- Claim C3 (confirmed; reconciler modelled from the spec): for
participant rows grouped by distinct conversation ids, a conversation is
folded into the Group queried for `target` if and only if its contact set is
exactly the target set — never a subset, never a superset. -/
theorem C3_exact_set_grouping (bs : List (Nat × List Nat)) (target : List Nat)
    (cid : Nat) (cs : List Nat)
    (hne : ∀ b ∈ bs, b.2 ≠ []) (hnd : (bs.map Prod.fst).Nodup)
    (hmem : (cid, cs) ∈ bs) :
    cid ∈ foldConversations target (rowsOfBlocks bs) ↔ sameSetB cs target = true := by
  unfold foldConversations
  rw [List.mem_reverse,
    foldConversations_spec target bs ⟨none, [], true, []⟩ cid hne
      (fun b _ => by intro h; cases h) hnd]
  constructor
  · rintro (h | ⟨cs', hmem', hs⟩)
    · simp [closeOut] at h
    · rw [assoc_unique bs hnd cid cs cs' hmem hmem']
      exact hs
  · intro hs
    exact Or.inr ⟨cs, hmem, hs⟩

/-- Witness for `C3_exact_set_grouping`: the conversation with contacts
`{10, 20, 30}` is never folded into the Group for the subset `{10, 20}` nor
for the superset `{10, 20, 30, 40}`, and is folded for the exact set. -/
theorem C3_exact_set_grouping_witness :
    ((1 ∈ foldConversations [10, 20] (rowsOfBlocks [(1, [10, 20, 30])]) ↔
        sameSetB [10, 20, 30] [10, 20] = true) ∧
      sameSetB [10, 20, 30] [10, 20] = false) ∧
    ((1 ∈ foldConversations [10, 20, 30, 40] (rowsOfBlocks [(1, [10, 20, 30])]) ↔
        sameSetB [10, 20, 30] [10, 20, 30, 40] = true) ∧
      sameSetB [10, 20, 30] [10, 20, 30, 40] = false) ∧
    ((1 ∈ foldConversations [30, 20, 10] (rowsOfBlocks [(1, [10, 20, 30])]) ↔
        sameSetB [10, 20, 30] [30, 20, 10] = true) ∧
      sameSetB [10, 20, 30] [30, 20, 10] = true) :=
  ⟨⟨C3_exact_set_grouping [(1, [10, 20, 30])] [10, 20] 1 [10, 20, 30]
      (by decide) (by decide) (by decide), by decide⟩,
   ⟨C3_exact_set_grouping [(1, [10, 20, 30])] [10, 20, 30, 40] 1 [10, 20, 30]
      (by decide) (by decide) (by decide), by decide⟩,
   ⟨C3_exact_set_grouping [(1, [10, 20, 30])] [30, 20, 10] 1 [10, 20, 30]
      (by decide) (by decide) (by decide), by decide⟩⟩

/-! ## Claim C7: all-or-nothing persistence of one conversation -/

/-- A `conversation` table row. -/
structure ConvRow where
  type : String
  timestamp : Int
  duration : String
  transcript : String
  sourceFile : String
deriving DecidableEq, Repr

/-- The relational store of `createTables`.  Row ids are `AUTOINCREMENT` in
insertion order, modelled as the 0-based index of a row in its table; the
`contact` table's `UNIQUE(name, phone_number)` backs `INSERT OR IGNORE`. -/
structure DB where
  conversations : List ConvRow
  contacts : List (String × String)
  participants : List (Nat × Nat)
  messages : List (Nat × Int × Nat × String)
  images : List (Nat × String)
  mediaFiles : List (Nat × String × String)
deriving DecidableEq, Repr

/-- One checked database operation consumes one failure-oracle entry
(`true` = the operation returns an error); an exhausted oracle means no more
failures. -/
def oStep : List Bool → Bool × List Bool
  | [] => (false, [])
  | b :: rest => (b, rest)

/-- A checked operation as an `Option`: `none` is the error path. -/
def failStep (o : List Bool) : Option (List Bool) :=
  match oStep o with
  | (true, _) => none
  | (false, o1) => some o1

/-- `INSERT OR IGNORE INTO contact (name, phone_number)`. -/
def insContact (db : DB) (name num : String) : DB :=
  if db.contacts.contains (name, num) then db
  else { db with contacts := db.contacts ++ [(name, num)] }

/-- Index of a pair in a list (the contact's rowid). -/
def idxOf : List (String × String) → (String × String) → Option Nat
  | [], _ => none
  | kv :: rest, p => if kv = p then some 0 else (idxOf rest p).map (· + 1)

/-- `SELECT id FROM contact WHERE name = ? AND phone_number = ?`. -/
def contactIdOf (db : DB) (name num : String) : Option Nat := idxOf db.contacts (name, num)

/-- Lookup in the in-transaction `contactIDs` Go map. -/
def nlookup : List (String × Nat) → String → Option Nat
  | [], _ => none
  | kv :: rest, k => if kv.1 = k then some kv.2 else nlookup rest k

/-- Assignment into the `contactIDs` Go map. -/
def nupsert : List (String × Nat) → String → Nat → List (String × Nat)
  | [], k, v => [(k, v)]
  | kv :: rest, k, v => if kv.1 = k then (k, v) :: rest else kv :: nupsert rest k v

/-- The participants loop of `insertConversation`: per participant a contact
insert-or-ignore, a contact-id select and a participant insert, each a
checked operation; any failure aborts the whole transaction. -/
def partLoop (cid : Nat) :
    DB → List Bool → List (String × Nat) → List (String × String) →
    Option (DB × List Bool × List (String × Nat))
  | db, o, cmap, [] => some (db, o, cmap)
  | db, o, cmap, (name, num) :: rest =>
    match failStep o with
    | none => none
    | some o1 =>
    match failStep o1 with
    | none => none
    | some o2 =>
    match contactIdOf (insContact db name num) name num with
    | none => none
    | some ctid =>
    match failStep o2 with
    | none => none
    | some o3 =>
      partLoop cid
        { insContact db name num with
          participants := (insContact db name num).participants ++ [(cid, ctid)] }
        o3 (nupsert cmap name ctid) rest

/-- Failure-free shape of the participants loop (the select after an
insert-or-ignore always finds the row, see `contactIdOf_insContact`). -/
def partLoopPure (cid : Nat) :
    DB → List (String × Nat) → List (String × String) → DB × List (String × Nat)
  | db, cmap, [] => (db, cmap)
  | db, cmap, (name, num) :: rest =>
    partLoopPure cid
      { insContact db name num with
        participants := (insContact db name num).participants
          ++ [(cid, (contactIdOf (insContact db name num) name num).getD 0)] }
      (nupsert cmap name ((contactIdOf (insContact db name num) name num).getD 0)) rest

/-- Model of `insertMediaFile` up to its media-row insert: resolve the
attachment on disk and read it; either step failing is an error to the
caller. `fc` models `os.ReadFile` over the directory. -/
def insertMediaFileRow (listing : List String) (fc : String → Option String)
    (imageURL : String) : Option (String × String) :=
  match findMediaFile listing imageURL with
  | none => none
  | some path =>
    match fc path with
    | none => none
    | some content => some (path, content)

/-- The image loop of `insertConversation`: per image an image insert, a
`LastInsertId` and — after resolving and reading the attachment — a
media-file insert, each checked; failure aborts the whole transaction. -/
def imgLoop (mid : Nat) (listing : List String) (fc : String → Option String) :
    DB → List Bool → List String → Option (DB × List Bool)
  | db, o, [] => some (db, o)
  | db, o, img :: rest =>
    match failStep o with
    | none => none
    | some o1 =>
    match failStep o1 with
    | none => none
    | some o2 =>
    match insertMediaFileRow listing fc img with
    | none => none
    | some pc =>
    match failStep o2 with
    | none => none
    | some o3 =>
      imgLoop mid listing fc
        { db with images := db.images ++ [(mid, img)],
                  mediaFiles := db.mediaFiles ++ [(db.images.length, pc.1, pc.2)] }
        o3 rest

/-- Failure-free shape of the image loop (`none` when an attachment cannot
be resolved or read — then no run can commit). -/
def imgLoopPure (mid : Nat) (listing : List String) (fc : String → Option String) :
    DB → List String → Option DB
  | db, [] => some db
  | db, img :: rest =>
    match insertMediaFileRow listing fc img with
    | none => none
    | some pc =>
      imgLoopPure mid listing fc
        { db with images := db.images ++ [(mid, img)],
                  mediaFiles := db.mediaFiles ++ [(db.images.length, pc.1, pc.2)] }
        rest

/-- The message loop of `insertConversation`: an unknown sender aborts; per
message a message insert and a `LastInsertId`, each checked, then the image
loop. -/
def msgLoop (cid : Nat) (listing : List String) (fc : String → Option String)
    (cmap : List (String × Nat)) :
    DB → List Bool → List Message → Option (DB × List Bool)
  | db, o, [] => some (db, o)
  | db, o, msg :: rest =>
    match nlookup cmap msg.sender with
    | none => none
    | some ctid =>
    match failStep o with
    | none => none
    | some o1 =>
    match failStep o1 with
    | none => none
    | some o2 =>
    match imgLoop db.messages.length listing fc
        { db with messages := db.messages ++ [(cid, msg.timestamp, ctid, msg.content)] }
        o2 msg.images with
    | none => none
    | some (db2, o3) => msgLoop cid listing fc cmap db2 o3 rest

/-- Failure-free shape of the message loop. -/
def msgLoopPure (cid : Nat) (listing : List String) (fc : String → Option String)
    (cmap : List (String × Nat)) : DB → List Message → Option DB
  | db, [] => some db
  | db, msg :: rest =>
    match nlookup cmap msg.sender with
    | none => none
    | some ctid =>
    match imgLoopPure db.messages.length listing fc
        { db with messages := db.messages ++ [(cid, msg.timestamp, ctid, msg.content)] }
        msg.images with
    | none => none
    | some db2 => msgLoopPure cid listing fc cmap db2 rest

/-- The transaction body of `insertConversation`: `Begin`, the prepares, the
conversation insert and its `LastInsertId`, the participants loop, the
remaining prepares, the message loop, and `Commit` — every Go operation
guarded by `if err != nil { return }` consumes one oracle entry; `none` is
the rolled-back path. -/
def insertConversationTx (db : DB) (conv : Conversation) (o : List Bool)
    (listing : List String) (fc : String → Option String) : Option DB :=
  match failStep o with
  | none => none
  | some o =>
  match failStep o with
  | none => none
  | some o =>
  match failStep o with
  | none => none
  | some o =>
  match failStep o with
  | none => none
  | some o =>
  match failStep o with
  | none => none
  | some o =>
  match failStep o with
  | none => none
  | some o =>
  match partLoop db.conversations.length
      { db with conversations := db.conversations ++
        [⟨conv.type, conv.timestamp, conv.duration, conv.transcript, conv.sourceFile⟩] }
      o [] conv.participants with
  | none => none
  | some (db2, o, cmap) =>
  match failStep o with
  | none => none
  | some o =>
  match failStep o with
  | none => none
  | some o =>
  match failStep o with
  | none => none
  | some o =>
  match msgLoop db.conversations.length listing fc cmap db2 o conv.messages with
  | none => none
  | some (db3, o) =>
  match failStep o with
  | none => none
  | some _ => some db3

/-- Model of `insertConversation`: on any error the deferred `tx.Rollback`
leaves the database untouched; only a successful `Commit` publishes the
staged rows. -/
def insertConversation (db : DB) (conv : Conversation) (oracle : List Bool)
    (listing : List String) (fc : String → Option String) : DB :=
  match insertConversationTx db conv oracle listing fc with
  | none => db
  | some db2 => db2

/-- The fully-committed outcome of one conversation: all rows staged by a
failure-free run (`none` when the conversation can never fully commit — an
unknown sender or an unresolvable attachment). -/
def applyAll (db : DB) (conv : Conversation) (listing : List String)
    (fc : String → Option String) : Option DB :=
  msgLoopPure db.conversations.length listing fc
    (partLoopPure db.conversations.length
      { db with conversations := db.conversations ++
        [⟨conv.type, conv.timestamp, conv.duration, conv.transcript, conv.sourceFile⟩] }
      [] conv.participants).2
    (partLoopPure db.conversations.length
      { db with conversations := db.conversations ++
        [⟨conv.type, conv.timestamp, conv.duration, conv.transcript, conv.sourceFile⟩] }
      [] conv.participants).1
    conv.messages

/-- Membership gives an index. -/
theorem idxOf_isSome_of_mem : ∀ (l : List (String × String)) (p : String × String),
    p ∈ l → ∃ i, idxOf l p = some i
  | [], p, h => absurd h (List.not_mem_nil p)
  | kv :: rest, p, h => by
    by_cases hk : kv = p
    · exact ⟨0, by simp [idxOf, hk]⟩
    · rcases List.mem_cons.mp h with rfl | ht
      · exact absurd rfl hk
      · rcases idxOf_isSome_of_mem rest p ht with ⟨i, hi⟩
        exact ⟨i + 1, by simp [idxOf, hk, hi]⟩

/-- The contact-id select after an insert-or-ignore always finds the row. -/
theorem contactIdOf_insContact (db : DB) (name num : String) :
    ∃ i, contactIdOf (insContact db name num) name num = some i := by
  unfold contactIdOf insContact
  by_cases h : db.contacts.contains (name, num)
  · rw [if_pos h]
    exact idxOf_isSome_of_mem _ _ (by simpa [List.contains] using h)
  · rw [if_neg h]
    exact idxOf_isSome_of_mem _ _ (by simp)

/-- The participants loop either aborts or produces exactly its failure-free
shape. -/
theorem partLoop_spec (cid : Nat) :
    ∀ (ps : List (String × String)) (db : DB) (o : List Bool) (cmap : List (String × Nat)),
    partLoop cid db o cmap ps = none ∨
    ∃ o2, partLoop cid db o cmap ps
      = some ((partLoopPure cid db cmap ps).1, o2, (partLoopPure cid db cmap ps).2)
  | [], _, o, _ => Or.inr ⟨o, rfl⟩
  | (name, num) :: rest, db, o, cmap => by
    simp only [partLoop, partLoopPure]
    rcases contactIdOf_insContact db name num with ⟨i, hi⟩
    rw [hi]
    dsimp only
    simp only [Option.getD_some]
    cases h1 : failStep o with
    | none => exact Or.inl rfl
    | some o1 =>
    dsimp only
    cases h2 : failStep o1 with
    | none => exact Or.inl rfl
    | some o2 =>
    dsimp only
    cases h3 : failStep o2 with
    | none => exact Or.inl rfl
    | some o3 =>
      dsimp only
      exact partLoop_spec cid rest _ o3 _

/-- The image loop either aborts or produces exactly its failure-free
shape. -/
theorem imgLoop_spec (mid : Nat) (listing : List String) (fc : String → Option String) :
    ∀ (imgs : List String) (db : DB) (o : List Bool),
    imgLoop mid listing fc db o imgs = none ∨
    ∃ o2 db2, imgLoop mid listing fc db o imgs = some (db2, o2) ∧
      imgLoopPure mid listing fc db imgs = some db2
  | [], db, o => Or.inr ⟨o, db, rfl, rfl⟩
  | img :: rest, db, o => by
    simp only [imgLoop, imgLoopPure]
    cases h1 : failStep o with
    | none => exact Or.inl rfl
    | some o1 =>
    dsimp only
    cases h2 : failStep o1 with
    | none => exact Or.inl rfl
    | some o2 =>
    dsimp only
    cases hm : insertMediaFileRow listing fc img with
    | none => exact Or.inl rfl
    | some pc =>
    dsimp only
    cases h3 : failStep o2 with
    | none => exact Or.inl rfl
    | some o3 =>
      dsimp only
      exact imgLoop_spec mid listing fc rest _ o3

/-- The message loop either aborts or produces exactly its failure-free
shape. -/
theorem msgLoop_spec (cid : Nat) (listing : List String) (fc : String → Option String)
    (cmap : List (String × Nat)) :
    ∀ (msgs : List Message) (db : DB) (o : List Bool),
    msgLoop cid listing fc cmap db o msgs = none ∨
    ∃ o2 db2, msgLoop cid listing fc cmap db o msgs = some (db2, o2) ∧
      msgLoopPure cid listing fc cmap db msgs = some db2
  | [], db, o => Or.inr ⟨o, db, rfl, rfl⟩
  | msg :: rest, db, o => by
    simp only [msgLoop, msgLoopPure]
    cases hs : nlookup cmap msg.sender with
    | none => exact Or.inl rfl
    | some ctid =>
    dsimp only
    cases h1 : failStep o with
    | none => exact Or.inl rfl
    | some o1 =>
    dsimp only
    cases h2 : failStep o1 with
    | none => exact Or.inl rfl
    | some o2 =>
    dsimp only
    rcases imgLoop_spec db.messages.length listing fc msg.images
        { db with messages := db.messages ++ [(cid, msg.timestamp, ctid, msg.content)] } o2
      with hI | ⟨o3, db2, hI, hIp⟩
    · rw [hI]
      exact Or.inl rfl
    · rw [hI, hIp]
      dsimp only
      exact msgLoop_spec cid listing fc cmap rest db2 o3

/-- The transaction body either aborts or commits exactly the
fully-successful row set. -/
theorem insertConversationTx_spec (db : DB) (conv : Conversation) (o : List Bool)
    (listing : List String) (fc : String → Option String) :
    insertConversationTx db conv o listing fc = none ∨
    ∃ db3, insertConversationTx db conv o listing fc = some db3 ∧
      applyAll db conv listing fc = some db3 := by
  unfold insertConversationTx applyAll
  cases h1 : failStep o with
  | none => exact Or.inl rfl
  | some o1 =>
  dsimp only
  cases h2 : failStep o1 with
  | none => exact Or.inl rfl
  | some o2 =>
  dsimp only
  cases h3 : failStep o2 with
  | none => exact Or.inl rfl
  | some o3 =>
  dsimp only
  cases h4 : failStep o3 with
  | none => exact Or.inl rfl
  | some o4 =>
  dsimp only
  cases h5 : failStep o4 with
  | none => exact Or.inl rfl
  | some o5 =>
  dsimp only
  cases h6 : failStep o5 with
  | none => exact Or.inl rfl
  | some o6 =>
  dsimp only
  rcases partLoop_spec db.conversations.length conv.participants
      { db with conversations := db.conversations ++
        [⟨conv.type, conv.timestamp, conv.duration, conv.transcript, conv.sourceFile⟩] }
      o6 [] with hP | ⟨o7, hP⟩
  · rw [hP]
    exact Or.inl rfl
  · rw [hP]
    dsimp only
    cases h7 : failStep o7 with
    | none => exact Or.inl rfl
    | some o8 =>
    dsimp only
    cases h8 : failStep o8 with
    | none => exact Or.inl rfl
    | some o9 =>
    dsimp only
    cases h9 : failStep o9 with
    | none => exact Or.inl rfl
    | some o10 =>
    dsimp only
    rcases msgLoop_spec db.conversations.length listing fc
        (partLoopPure db.conversations.length
          { db with conversations := db.conversations ++
            [⟨conv.type, conv.timestamp, conv.duration, conv.transcript, conv.sourceFile⟩] }
          [] conv.participants).2
        conv.messages
        (partLoopPure db.conversations.length
          { db with conversations := db.conversations ++
            [⟨conv.type, conv.timestamp, conv.duration, conv.transcript, conv.sourceFile⟩] }
          [] conv.participants).1
        o10 with hM | ⟨o11, db3, hM, hMp⟩
    · rw [hM]
      exact Or.inl rfl
    · rw [hM]
      dsimp only
      cases h10 : failStep o11 with
      | none => exact Or.inl rfl
      | some o12 =>
        dsimp only
        exact Or.inr ⟨db3, rfl, hMp⟩

/-- Claim C7 (confirmed): persisting one conversation is all-or-nothing —
for every database state, conversation, failure pattern of the checked
operations, directory listing and file contents, the resulting database is
either exactly the original (any failure, including a failed commit, rolls
the transaction back in full) or exactly the fully-committed row set. -/
theorem C7_insert_all_or_nothing (db : DB) (conv : Conversation) (oracle : List Bool)
    (listing : List String) (fc : String → Option String) :
    insertConversation db conv oracle listing fc = db ∨
    some (insertConversation db conv oracle listing fc) = applyAll db conv listing fc := by
  unfold insertConversation
  rcases insertConversationTx_spec db conv oracle listing fc with h | ⟨db3, h, hA⟩
  · rw [h]
    exact Or.inl rfl
  · rw [h, hA]
    exact Or.inr rfl

/-- The empty store. -/
def dbEmpty : DB := ⟨[], [], [], [], [], []⟩

/-- A small voicemail record used by the insertion anchor. -/
def convC7 : Conversation := ⟨"voicemail", [("Bob", "+1")], 0, "00:00:18", [], "hi", "a.html"⟩

/-- Sanity anchor for the transaction model: a failing `Begin` leaves the
store untouched; a failure-free run commits the conversation, contact and
participant rows. -/
theorem insertConversation_anchor :
    insertConversation dbEmpty convC7 [true] [] (fun _ => none) = dbEmpty ∧
    insertConversation dbEmpty convC7 [] [] (fun _ => none)
      = ⟨[⟨"voicemail", 0, "00:00:18", "hi", "a.html"⟩], [("Bob", "+1")], [(0, 0)], [], [], []⟩ := by
  constructor <;> decide
